import Mathlib

/-!
Verification development for the `Var`/`DataVar` variable algebra and selection
engine of `utils/datavar.py` (imagepbl/ar6_database_handling).

The pandas tables are embedded shallowly:
* a scenario-universe row keeps the metadata columns `Category`, `IP`, `SSP`
  used by `Var.select` (missing entries are `none`);
* the raw dataset is a list of rows keyed by (`Name`, `Variable`) with one
  cell per year column; numeric cells are `Option ℚ` with `none` playing the
  role of NaN (exact rationals stand in for floats; NaN propagation of the
  table operations is modelled explicitly on `Option`);
* a values DataFrame is a column list plus rows of (name, cells); a values
  Series is its year token plus rows of (name, cell).

The fixed enumerations `YEARS`, `IP_SCENARIOS`, `SSP_SCENARIOS` live in
`utils/constants.py` and the function `get_interp` in `utils/data.py`; those
files are not part of the sources under verification.  Modelled from the spec:
the known-years set and the interpolation service are explicit parameters of
`Var.make`, and the IP/SSP name-to-canonical-scenario enumerations are
explicit association-list parameters of `Var.select`.
-/

/-- A cell of a pandas table: a rational, or `none` for NaN / missing. -/
abbrev Cell := Option ℚ

/-- One row of the scenario-universe table (`scenarios` / `vetted_scenarios`),
indexed by the scenario identity `name`; the metadata columns used by
`Var.select`. -/
structure ScenarioRow where
  name : String
  category : Option String
  ip : Option String
  ssp : Option String
deriving DecidableEq, Repr

/-- One row of the raw dataset: scenario identity, `Variable` label and the
year columns (association list year-token ↦ cell). -/
structure DataRow where
  name : String
  var : String
  cells : List (String × Cell)
deriving DecidableEq, Repr

/-- A DataFrame of values: year-column labels, and rows of
(scenario identity, cells aligned with `cols`). -/
structure DF where
  cols : List String
  rows : List (String × List Cell)
deriving DecidableEq, Repr

/-- `_values` of a `Var`: a Series with its year token (scalar mode,
`_year` a single string) or a DataFrame (vector mode, `_year` the column
list).  In `datavar.py` the two are tied together by construction. -/
inductive VarValues where
  | scalar (yearName : String) (rows : List (String × Cell))
  | vector (df : DF)
deriving DecidableEq, Repr

/-- The error signals raised by `datavar.py`: the two `Exception`s of
`Var.__init__` and `_check_and_harmonise_inputs`, the `KeyError`s of
`Var.select` (invalid filter value, `.loc` miss) and its
`NotImplementedError`. -/
inductive VarError where
  | ambiguousConstruction
  | invalidFilterValue (v : String)
  | keyError (k : String)
  | notImplementedFilter
  | incompatibleYears
deriving DecidableEq, Repr

/-- The `Var` entity: back-references to the dataset and both scenario
universes, the values table and the optional default fill. -/
structure Var where
  data : List DataRow
  scenarios : List ScenarioRow
  vettedScenarios : List ScenarioRow
  values : VarValues
  default : Option ℚ
deriving DecidableEq, Repr

/-- The `year` argument of `Var.__init__`: a single non-list token (scalar
mode) or a list of tokens (vector mode); `none` at the call site is the
separate `Option YearArg`. -/
inductive YearArg where
  | one (y : String)
  | many (ys : List String)
deriving DecidableEq, Repr

/-- Lexicographic character-code comparison on strings, used for the sort
steps (`sort_values`, `Index.union`).  The claims under verification never
depend on row or label order, only on membership. -/
def charsLt : List Char → List Char → Bool
  | [], _ :: _ => true
  | _, [] => false
  | a :: as, b :: bs =>
      if a.toNat < b.toNat then true
      else if b.toNat < a.toNat then false
      else charsLt as bs

/-- String comparison by character codes. -/
def strLt (a b : String) : Bool := charsLt a.data b.data

/-- Value of a labelled column inside a row's cell list (first matching
label, `none` when the label is absent). -/
def colVal : List String → List Cell → String → Cell
  | c :: cs, x :: xs, y => if c = y then x else colVal cs xs y
  | _, _, _ => none

/-- The dataset cell of row `r` at year column `y`. -/
def DataRow.cellAt (r : DataRow) (y : String) : Cell :=
  match r.cells.find? (fun p => p.1 = y) with
  | some p => p.2
  | none => none

/-- Index (scenario identities) of a values DataFrame. -/
def DF.names (d : DF) : List String := d.rows.map Prod.fst

/-- Label-based cell access `df.loc[n, y]`; `none` when the row or the
column is absent (matching NaN-producing alignment). -/
def DF.cellOf (d : DF) (n y : String) : Cell :=
  match d.rows.find? (fun r => r.1 = n) with
  | some r => colVal d.cols r.2 y
  | none => none

/-- Column assignment `df[y] = series` for a fresh column: appends the
column, each row receiving `f name`. -/
def DF.addCol (d : DF) (y : String) (f : String → Cell) : DF :=
  ⟨d.cols ++ [y], d.rows.map (fun r => (r.1, r.2 ++ [f r.1]))⟩

/-- Column projection `df[ys]`: exactly the requested labels in requested
order. -/
def DF.proj (d : DF) (ys : List String) : DF :=
  ⟨ys, d.rows.map (fun r => (r.1, ys.map (colVal d.cols r.2)))⟩

/-- Label-based access into a Series. -/
def seriesAt (rs : List (String × Cell)) (n : String) : Cell :=
  match rs.find? (fun r => r.1 = n) with
  | some r => r.2
  | none => none

/-- `fillna(default)` on one cell (no-op when no default is given). -/
def fillCell (dflt : Option ℚ) (c : Cell) : Cell :=
  match dflt with
  | none => c
  | some d => some (c.getD d)

/-- `fillna` over a whole DataFrame. -/
def DF.fill (dflt : Option ℚ) (d : DF) : DF :=
  ⟨d.cols, d.rows.map (fun r => (r.1, r.2.map (fillCell dflt)))⟩

/-- `self._values.fillna(self.default)` over either shape of `_values`. -/
def fillValues (dflt : Option ℚ) : VarValues → VarValues
  | .scalar y rs => .scalar y (rs.map (fun r => (r.1, fillCell dflt r.2)))
  | .vector d => .vector (d.fill dflt)

/-- `data[data["Variable"] == variable].set_index("Name")[existing_years]`:
the dataset rows of one variable, indexed by name, projected to the already
known year columns. -/
def baseFrame (data : List DataRow) (vn : String) (existing : List String) : DF :=
  ⟨existing,
    (data.filter (fun r => r.var = vn)).map
      (fun r => (r.name, existing.map (fun y => r.cellAt y)))⟩

/-- The variable-name construction path of `Var.__init__` up to (but not
including) the final column selection: split the requested years into the
known ones (fetched directly) and the rest (each assigned as a fresh column
from the interpolation service).  `interp vn y n` is the interpolated value
of variable `vn` at year token `y` for scenario `n` (modelled from the spec:
`get_interp` is consumed as a black box returning one value per scenario). -/
def rawFrame (knownYears : List String) (interp : String → String → String → Cell)
    (data : List DataRow) (vn : String) (ylist : List String) : DF :=
  let existing := (ylist.filter (fun y => y ∈ knownYears)).dedup
  let interpYears := (ylist.filter (fun y => ¬ y ∈ knownYears)).dedup
  interpYears.foldl (fun d y => d.addCol y (fun n => interp vn y n)) (baseFrame data vn existing)

/-- The explicit-values construction path shared by `Var.__init__` and the
arithmetic result wrapping: store the values (with `_year` already implied
by their shape) and apply the default fill. -/
def Var.fromValues (data : List DataRow) (scen vet : List ScenarioRow)
    (vv : VarValues) (dflt : Option ℚ) : Var :=
  ⟨data, scen, vet, fillValues dflt vv, dflt⟩

/-- `Var.__init__`.  Exactly one of `variab` (the variable name) and
`values` must be supplied; a single year token gives scalar mode, a year
list (or the default, the full known-years list) gives vector mode. -/
def Var.make (knownYears : List String) (interp : String → String → String → Cell)
    (data : List DataRow) (scen vet : List ScenarioRow)
    (variab : Option String) (year : Option YearArg) (values : Option VarValues)
    (dflt : Option ℚ) : Except VarError Var :=
  match variab, values with
  | none, none => .error .ambiguousConstruction
  | some _, some _ => .error .ambiguousConstruction
  | some vn, none =>
      let vv : VarValues :=
        match year with
        | none => .vector ((rawFrame knownYears interp data vn knownYears).proj knownYears)
        | some (.many ys) => .vector ((rawFrame knownYears interp data vn ys).proj ys)
        | some (.one y) =>
            let d := rawFrame knownYears interp data vn [y]
            .scalar y (d.rows.map (fun r => (r.1, colVal d.cols r.2 y)))
      .ok (Var.fromValues data scen vet vv dflt)
  | none, some vv => .ok (Var.fromValues data scen vet vv dflt)

/-- The filter argument shapes accepted by `Var.select` on each axis: the
literal sentinel `"all"`, a single value, or a list of values. -/
inductive FilterArg where
  | all
  | one (s : String)
  | many (ss : List String)
deriving DecidableEq, Repr

/-- `all_categories` of `Var.select`. -/
def allCategories : List String := ["C1", "C2", "C3", "C4", "C5", "C6", "C7", "C8"]

/-- The validation loop of each filter block: `KeyError` at the first value
outside the axis's fixed enumeration, otherwise the values unchanged. -/
def validateAll (valid vs : List String) : Except VarError (List String) :=
  match vs.find? (fun c => ¬ valid.contains c) with
  | some c => .error (.invalidFilterValue c)
  | none => .ok vs

/-- Resolve a filter argument against an axis enumeration: `"all"` expands
to the whole enumeration, otherwise `_to_list` plus validation. -/
def resolveArg (valid : List String) : FilterArg → Except VarError (List String)
  | .all => .ok valid
  | .one s => validateAll valid [s]
  | .many ss => validateAll valid ss

/-- Keys of an IP/SSP enumeration (tag names). -/
def mapKeys (m : List (String × String)) : List String := m.map Prod.fst

/-- `[M[v].scenario for v in tags]`: the canonical scenario identities of a
list of IP/SSP tags. -/
def canonOf (m : List (String × String)) (tags : List String) : List String :=
  tags.filterMap (fun t => (m.find? (fun p => p.1 = t)).map Prod.snd)

/-- `selection["Category"].isin(category)` on one row (NaN never matches). -/
def catMatch (cs : List String) (r : ScenarioRow) : Bool :=
  match r.category with
  | some c => decide (c ∈ cs)
  | none => false

/-- The climate-category block of `Var.select`: validate, filter, record the
`"Category"` metadata column as active. -/
def applyCat (cat : Option FilterArg) (sel : List ScenarioRow) :
    Except VarError (List ScenarioRow × List String) :=
  match cat with
  | none => .ok (sel, [])
  | some a =>
      match resolveArg allCategories a with
      | .error e => .error e
      | .ok cs => .ok (sel.filter (catMatch cs), ["Category"])

/-- The illustrative-pathway block of `Var.select`: validate the tags, keep
rows whose identity is a requested tag's canonical scenario. -/
def applyIp (ipS : List (String × String)) (ip : Option FilterArg)
    (sel : List ScenarioRow) :
    Except VarError (List ScenarioRow × List String) :=
  match ip with
  | none => .ok (sel, [])
  | some a =>
      match resolveArg (mapKeys ipS) a with
      | .error e => .error e
      | .ok tags =>
          .ok (sel.filter (fun r => decide (r.name ∈ canonOf ipS tags)), ["IP"])

/-- The add-back loop of the SSP block: for each canonical scenario of a
requested SSP tag that is missing from the selection, append its row from
the full universe (`self.scenarios.loc[...]`, `KeyError` when absent). -/
def addBack (full : List ScenarioRow) :
    List ScenarioRow → List String → Except VarError (List ScenarioRow)
  | sel, [] => .ok sel
  | sel, c :: cs =>
      if sel.any (fun r => r.name = c) then addBack full sel cs
      else
        match full.find? (fun r => r.name = c) with
        | some r => addBack full (sel ++ [r]) cs
        | none => .error (.keyError c)

/-- The SSP block of `Var.select`: validate, keep canonical scenarios of the
requested tags, then add unvetted (or otherwise excluded) canonical
scenarios back from the full universe. -/
def applySsp (sspS : List (String × String)) (full : List ScenarioRow)
    (ssp : Option FilterArg) (sel : List ScenarioRow) :
    Except VarError (List ScenarioRow × List String) :=
  match ssp with
  | none => .ok (sel, [])
  | some a =>
      match resolveArg (mapKeys sspS) a with
      | .error e => .error e
      | .ok tags =>
          match addBack full
              (sel.filter (fun r => decide (r.name ∈ canonOf sspS tags)))
              (canonOf sspS tags) with
          | .error e => .error e
          | .ok sel2 => .ok (sel2, ["SSP"])

/-- One row of a `select` result: values of the active metadata columns,
the scenario identity, and the payload (they form the composite index
(active columns…, Name) plus the data). -/
structure SelRow (β : Type) where
  extra : List (Option String)
  name : String
  val : β
deriving DecidableEq, Repr

/-- The active-metadata-column values attached to scenario `n` by the
left merge with `selection[extra_columns]`. -/
def extraOf (sel : List ScenarioRow) (ecols : List String) (n : String) :
    List (Option String) :=
  match sel.find? (fun r => r.name = n) with
  | some r =>
      ecols.map (fun c => if c = "Category" then r.category
        else if c = "IP" then r.ip else r.ssp)
  | none => ecols.map (fun _ => none)

/-- Ordering of metadata values in `sort_values`: NaN sorts last. -/
def optStrLT : Option String → Option String → Bool
  | some a, some b => strLt a b
  | some _, none => true
  | none, _ => false

/-- Lexicographic strict order on the active-column value tuples. -/
def extraLT : List (Option String) → List (Option String) → Bool
  | a :: as, b :: bs => if a = b then extraLT as bs else optStrLT a b
  | _, _ => false

/-- Sorted insertion used to model `sort_values(extra_columns)` (the claims
under verification are insensitive to row order). -/
def insertRow {β : Type} (x : SelRow β) : List (SelRow β) → List (SelRow β)
  | [] => [x]
  | y :: ys => if extraLT y.extra x.extra then y :: insertRow x ys else x :: y :: ys

/-- The tail of `Var.select` on a DataFrame: restrict the values to the
selected scenarios, attach the active metadata columns, sort by them. -/
def runSelect (sel : List ScenarioRow) (ecols : List String)
    (rows : List (String × List Cell)) : List (SelRow (List Cell)) :=
  ((rows.filter (fun r => sel.any (fun s => s.name = r.1))).map
      (fun r => (⟨extraOf sel ecols r.1, r.1, r.2⟩ : SelRow (List Cell)))).foldr
    insertRow []

/-- A `select` result: a named Series (scalar mode) or a DataFrame (vector
mode), each with its composite index. -/
inductive Sel where
  | series (sname : String) (extraCols : List String) (rows : List (SelRow Cell))
  | frame (cols : List String) (extraCols : List String)
      (rows : List (SelRow (List Cell)))
deriving DecidableEq, Repr

/-- Scenario identities of a `select` result, in result order. -/
def Sel.namesList : Sel → List String
  | .series _ _ rs => rs.map (fun r => r.name)
  | .frame _ _ rs => rs.map (fun r => r.name)

/-- The final projection step of `Var.select`: in scalar mode the Series is
passed through `to_frame("value")`, the common pipeline, and extraction of
the `"value"` column; in vector mode the year columns are kept. -/
def buildSel (sel : List ScenarioRow) (ecols : List String) : VarValues → Sel
  | .vector d => .frame d.cols ecols (runSelect sel ecols d.rows)
  | .scalar _ rs =>
      .series "value" ecols
        ((runSelect sel ecols (rs.map (fun r => (r.1, [r.2])))).map
          (fun r => (⟨r.extra, r.name, colVal ["value"] r.val "value"⟩ : SelRow Cell)))

/-- `Var.select`.  `ipS` and `sspS` are the `IP_SCENARIOS`/`SSP_SCENARIOS`
enumerations (modelled from the spec as tag ↦ canonical-scenario association
lists).  Starts from the vetted sub-universe unless `vetted` is false, then
applies the category, IP and SSP blocks in order; a non-null `curpol` or
`ndc` fails with the not-implemented signal. -/
def Var.select (ipS sspS : List (String × String)) (v : Var)
    (cat ip ssp : Option FilterArg) (curpol ndc : Option Unit) (vetted : Bool) :
    Except VarError Sel :=
  match applyCat cat (if vetted then v.vettedScenarios else v.scenarios) with
  | .error e => .error e
  | .ok (sel1, e1) =>
      match applyIp ipS ip sel1 with
      | .error e => .error e
      | .ok (sel2, e2) =>
          match applySsp sspS v.scenarios ssp sel2 with
          | .error e => .error e
          | .ok (sel3, e3) =>
              if curpol.isSome then .error .notImplementedFilter
              else if ndc.isSome then .error .notImplementedFilter
              else .ok (buildSel sel3 (e1 ++ e2 ++ e3) v.values)

/-- `set(y1) != set(y2)` negated: the two year-label lists are equal as
unordered sets. -/
def yearSetEqB (l1 l2 : List String) : Bool :=
  l1.all (fun y => decide (y ∈ l2)) && l2.all (fun y => decide (y ∈ l1))

/-- Sorted insertion on strings, for the label union of pandas alignment. -/
def insertStr (x : String) : List String → List String
  | [] => [x]
  | y :: ys => if strLt y x then y :: insertStr x ys else x :: y :: ys

/-- Insertion sort on strings. -/
def sortStrings (l : List String) : List String := l.foldr insertStr []

/-- `Index.union` of pandas binary alignment: equal indexes are kept as-is,
otherwise the sorted, duplicate-free union. -/
def unionLabels (l r : List String) : List String :=
  if l = r then l else sortStrings ((l ++ r.filter (fun c => ¬ c ∈ l)).dedup)

/-- Element-wise combination with NaN propagation: missing on either side
gives missing. -/
def combineCell (op : ℚ → ℚ → ℚ) : Cell → Cell → Cell
  | some a, some b => some (op a b)
  | _, _ => none

/-- DataFrame-DataFrame arithmetic: outer alignment by row and column
label; cells combined where both sides have a value, NaN elsewhere. -/
def frameBinOp (op : ℚ → ℚ → ℚ) (l r : DF) : DF :=
  let cols := unionLabels l.cols r.cols
  let ns := unionLabels l.names r.names
  ⟨cols, ns.map (fun n => (n, cols.map (fun y => combineCell op (l.cellOf n y) (r.cellOf n y))))⟩

/-- Series-Series arithmetic: outer alignment by row label. -/
def seriesBinOp (op : ℚ → ℚ → ℚ) (l r : List (String × Cell)) :
    List (String × Cell) :=
  (unionLabels (l.map Prod.fst) (r.map Prod.fst)).map
    (fun n => (n, combineCell op (seriesAt l n) (seriesAt r n)))

/-- `pd.DataFrame({year: series for year in ylist})` of the harmonisation
cases 2 and 3: replicate a scalar-mode column across every year label (the
dict comprehension collapses duplicate year keys). -/
def broadcastFrame (ylist : List String) (srows : List (String × Cell)) : DF :=
  ⟨ylist.dedup, srows.map (fun r => (r.1, ylist.dedup.map (fun _ => r.2)))⟩

/-- Plain-number broadcast (`isinstance(other, (int, float))` case of
`_check_and_harmonise_inputs`): the operator applied against every cell. -/
def numOp (op : ℚ → ℚ → ℚ) : VarValues → ℚ → VarValues
  | .scalar t rs, x => .scalar t (rs.map (fun r => (r.1, r.2.map (fun a => op a x))))
  | .vector d, x =>
      .vector ⟨d.cols, d.rows.map (fun r => (r.1, r.2.map (fun c => c.map (fun a => op a x))))⟩

/-- The right operand of a binary operator: a plain number or a `Var`. -/
inductive Operand where
  | num (x : ℚ)
  | var (v : Var)

/-- One binary arithmetic operator on `Var`: `_check_and_harmonise_inputs`
(cases 1-4 on the scalar/vector modes of the two operands, with the
year-set compatibility check for two vector operands) followed by the
element-wise table operation, the result wrapped through the
explicit-values constructor path with `self`'s default. -/
def Var.binop (op : ℚ → ℚ → ℚ) (v : Var) (o : Operand) : Except VarError Var :=
  match o with
  | .num x =>
      .ok (Var.fromValues v.data v.scenarios v.vettedScenarios (numOp op v.values x) v.default)
  | .var w =>
      match v.values, w.values with
      | .vector d1, .vector d2 =>
          if yearSetEqB d1.cols d2.cols then
            .ok (Var.fromValues v.data v.scenarios v.vettedScenarios
              (.vector (frameBinOp op d1 d2)) v.default)
          else .error .incompatibleYears
      | .vector d1, .scalar _ rs2 =>
          .ok (Var.fromValues v.data v.scenarios v.vettedScenarios
            (.vector (frameBinOp op d1 (broadcastFrame d1.cols rs2))) v.default)
      | .scalar _ rs1, .vector d2 =>
          .ok (Var.fromValues v.data v.scenarios v.vettedScenarios
            (.vector (frameBinOp op (broadcastFrame d2.cols rs1) d2)) v.default)
      | .scalar t1 rs1, .scalar t2 rs2 =>
          .ok (Var.fromValues v.data v.scenarios v.vettedScenarios
            (.scalar (if t1 = t2 then t1 else "None") (seriesBinOp op rs1 rs2)) v.default)

/-- `Var.__add__`. -/
def Var.add (v : Var) (o : Operand) : Except VarError Var := v.binop (· + ·) o

/-- `Var.__sub__`. -/
def Var.sub (v : Var) (o : Operand) : Except VarError Var := v.binop (· - ·) o

/-- `Var.__mul__`. -/
def Var.mul (v : Var) (o : Operand) : Except VarError Var := v.binop (· * ·) o

/-- `Var.__truediv__` (ℚ division stands in for float division away from
zero divisors). -/
def Var.div (v : Var) (o : Operand) : Except VarError Var := v.binop (· / ·) o

/-- Scenario identities of either shape of `_values`. -/
def VarValues.namesList : VarValues → List String
  | .scalar _ rs => rs.map Prod.fst
  | .vector d => d.names

/-- Scenario identities of a `Var`'s values table. -/
def Var.namesList (v : Var) : List String := v.values.namesList

/-- Cell access on a `Var`: by scenario and year in vector mode, by
scenario only in scalar mode. -/
def Var.cellOf (v : Var) (n y : String) : Cell :=
  match v.values with
  | .scalar _ rs => seriesAt rs n
  | .vector d => d.cellOf n y

/-- `_year` of a `Var`, as the list of year labels it spans. -/
def Var.yearLabels (v : Var) : List String :=
  match v.values with
  | .scalar t _ => [t]
  | .vector d => d.cols

/-- Whether a `Var` is in vector mode. -/
def Var.isVector (v : Var) : Bool :=
  match v.values with
  | .vector _ => true
  | .scalar _ _ => false

/-- The `DataVar` factory: holds the dataset and both universes, creates a
`Var` by variable name on each call. -/
structure DataVar where
  data : List DataRow
  scenarios : List ScenarioRow
  vettedScenarios : List ScenarioRow

/-- `DataVar.__call__`. -/
def DataVar.call (dv : DataVar) (knownYears : List String)
    (interp : String → String → String → Cell) (vn : String)
    (year : Option YearArg) (dflt : Option ℚ) : Except VarError Var :=
  Var.make knownYears interp dv.data dv.scenarios dv.vettedScenarios
    (some vn) year none dflt

/-! ### Basic lemmas about labelled lookups -/

theorem colVal_map (f : String → Cell) (cs : List String) (y : String) :
    colVal cs (cs.map f) y = if y ∈ cs then f y else none := by
  induction cs with
  | nil => rfl
  | cons c cs ih =>
      by_cases h : c = y
      · subst h; simp [colVal]
      · simp only [List.map_cons, colVal, h, if_false, ih, List.mem_cons]
        have hy : ¬ y = c := fun hyc => h hyc.symm
        simp [hy]

theorem colVal_map_append (f g : String → Cell) (as bs : List String) (y : String) :
    colVal (as ++ bs) (as.map f ++ bs.map g) y =
      if y ∈ as then f y else colVal bs (bs.map g) y := by
  induction as with
  | nil => simp
  | cons a as ih =>
      by_cases h : a = y
      · subst h; simp [colVal]
      · simp only [List.cons_append, List.map_cons, colVal, h, if_false,
          List.mem_cons]
        have hy : ¬ y = a := fun hya => h hya.symm
        simp only [hy, false_or]
        exact ih

theorem colVal_some_mem {cs : List String} {xs : List Cell} {y : String} {x : ℚ}
    (h : colVal cs xs y = some x) : y ∈ cs := by
  induction cs generalizing xs with
  | nil => cases xs <;> simp [colVal] at h
  | cons c cs ih =>
      cases xs with
      | nil => simp [colVal] at h
      | cons a xs =>
          by_cases hc : c = y
          · subst hc; exact List.mem_cons_self _ _
          · simp only [colVal, hc, if_false] at h
            exact List.mem_cons_of_mem _ (ih h)

theorem find?_keyed_map {β : Type} (g : String → β) (ns : List String) (n : String) :
    (ns.map (fun m => (m, g m))).find? (fun r => decide (r.1 = n))
      = if n ∈ ns then some (n, g n) else none := by
  induction ns with
  | nil => rfl
  | cons m ns ih =>
      simp only [List.map_cons]
      by_cases hm : m = n
      · subst hm
        rw [List.find?_cons_of_pos _ (by simp)]
        simp
      · rw [List.find?_cons_of_neg _ (by simp [hm])]
        rw [ih]
        have hn : ¬ n = m := fun hnm => hm hnm.symm
        by_cases hns : n ∈ ns <;> simp [hns, hn, List.mem_cons]

theorem seriesAt_keyed (h : String → Cell) (ns : List String) (n : String) :
    seriesAt (ns.map (fun m => (m, h m))) n = if n ∈ ns then h n else none := by
  unfold seriesAt
  rw [find?_keyed_map h ns n]
  by_cases hn : n ∈ ns <;> simp [hn]

theorem seriesAt_not_mem {rs : List (String × Cell)} {n : String}
    (h : ¬ n ∈ rs.map Prod.fst) : seriesAt rs n = none := by
  unfold seriesAt
  have hf : rs.find? (fun r => decide (r.1 = n)) = none := by
    rw [List.find?_eq_none]
    intro p hp
    simp only [decide_eq_true_eq]
    intro he
    exact h (he ▸ List.mem_map_of_mem Prod.fst hp)
  rw [hf]

theorem seriesAt_some_mem {rs : List (String × Cell)} {n : String} {x : ℚ}
    (h : seriesAt rs n = some x) : n ∈ rs.map Prod.fst := by
  by_cases hm : n ∈ rs.map Prod.fst
  · exact hm
  · rw [seriesAt_not_mem hm] at h
    cases h

theorem DF.cellOf_build (cols ns : List String) (F : String → String → Cell)
    (n y : String) :
    DF.cellOf ⟨cols, ns.map (fun m => (m, cols.map (F m)))⟩ n y
      = if n ∈ ns then (if y ∈ cols then F n y else none) else none := by
  unfold DF.cellOf
  rw [find?_keyed_map (fun m => cols.map (F m)) ns n]
  by_cases hn : n ∈ ns
  · simp [hn, colVal_map]
  · simp [hn]

theorem DF.cellOf_not_mem {d : DF} {n : String} (h : ¬ n ∈ d.names) (y : String) :
    d.cellOf n y = none := by
  unfold DF.cellOf
  have hf : d.rows.find? (fun r => decide (r.1 = n)) = none := by
    rw [List.find?_eq_none]
    intro p hp
    simp only [decide_eq_true_eq]
    intro he
    exact h (he ▸ List.mem_map_of_mem Prod.fst hp)
  rw [hf]

theorem DF.cellOf_some_name {d : DF} {n y : String} {x : ℚ}
    (h : d.cellOf n y = some x) : n ∈ d.names := by
  by_cases hm : n ∈ d.names
  · exact hm
  · rw [DF.cellOf_not_mem hm] at h
    cases h

theorem DF.cellOf_some_col {d : DF} {n y : String} {x : ℚ}
    (h : d.cellOf n y = some x) : y ∈ d.cols := by
  unfold DF.cellOf at h
  cases hf : d.rows.find? (fun r => decide (r.1 = n)) with
  | none => rw [hf] at h; cases h
  | some r => rw [hf] at h; exact colVal_some_mem h

/-! ### Label unions and sorting -/

theorem mem_insertStr {x a : String} {l : List String} :
    a ∈ insertStr x l ↔ a = x ∨ a ∈ l := by
  induction l with
  | nil => simp [insertStr]
  | cons y ys ih =>
      unfold insertStr
      by_cases h : strLt y x
      · simp only [h, if_true, List.mem_cons, ih]
        tauto
      · simp [h, List.mem_cons]

theorem mem_sortStrings {a : String} {l : List String} :
    a ∈ sortStrings l ↔ a ∈ l := by
  induction l with
  | nil => simp [sortStrings]
  | cons x xs ih =>
      simp only [sortStrings, List.foldr_cons] at *
      rw [mem_insertStr, ih, List.mem_cons]

theorem mem_unionLabels {y : String} {l r : List String} :
    y ∈ unionLabels l r ↔ y ∈ l ∨ y ∈ r := by
  unfold unionLabels
  by_cases h : l = r
  · subst h; simp
  · simp only [h, if_false, mem_sortStrings, List.mem_dedup, List.mem_append,
      List.mem_filter, decide_eq_true_eq]
    by_cases hy : y ∈ l <;> simp [hy]

theorem combineCell_none_right (op : ℚ → ℚ → ℚ) (a : Cell) :
    combineCell op a none = none := by
  cases a <;> rfl

theorem combineCell_none_left (op : ℚ → ℚ → ℚ) (b : Cell) :
    combineCell op none b = none := by
  cases b <;> rfl

theorem fillCell_some (dflt : Option ℚ) (x : ℚ) :
    fillCell dflt (some x) = some x := by
  cases dflt <;> rfl

theorem fillCell_none_eq (c : Cell) : fillCell none c = c := rfl

theorem fillValues_none (vv : VarValues) : fillValues none vv = vv := by
  cases vv with
  | scalar t rs =>
      simp [fillValues, fillCell_none_eq]
  | vector d =>
      cases d with
      | mk cols rows =>
          have hid : fillCell none = fun c => c := funext fillCell_none_eq
          simp [fillValues, DF.fill, hid]

/-! ### Characterisation of construction from a variable name -/

theorem foldl_addCol_spec (g : String → String → Cell) (ys : List String) (d : DF) :
    ys.foldl (fun df y => df.addCol y (fun n => g y n)) d
      = ⟨d.cols ++ ys, d.rows.map (fun r => (r.1, r.2 ++ ys.map (fun y => g y r.1)))⟩ := by
  induction ys generalizing d with
  | nil =>
      cases d with
      | mk cols rows => simp [DF.addCol]
  | cons y ys ih =>
      simp only [List.foldl_cons]
      rw [ih]
      cases d with
      | mk cols rows =>
          simp only [DF.addCol, List.map_map, Function.comp, List.map_cons,
            List.append_assoc, List.singleton_append, DF.mk.injEq]
          refine ⟨trivial, ?_⟩
          apply List.map_congr_left
          intro r _
          simp [List.append_assoc]

theorem rawFrame_eq (K : List String) (interp : String → String → String → Cell)
    (data : List DataRow) (vn : String) (ylist : List String) :
    rawFrame K interp data vn ylist
      = ⟨(ylist.filter (fun y => y ∈ K)).dedup
            ++ (ylist.filter (fun y => ¬ y ∈ K)).dedup,
         (data.filter (fun r => r.var = vn)).map (fun r =>
           (r.name,
             (ylist.filter (fun y => y ∈ K)).dedup.map (fun y => r.cellAt y)
               ++ (ylist.filter (fun y => ¬ y ∈ K)).dedup.map
                   (fun y => interp vn y r.name)))⟩ := by
  unfold rawFrame baseFrame
  rw [foldl_addCol_spec]
  simp [List.map_map, Function.comp]

theorem make_many_values (K : List String)
    (interp : String → String → String → Cell) (data : List DataRow)
    (scen vet : List ScenarioRow) (vn : String) (Y : List String)
    (dflt : Option ℚ) (v : Var)
    (h : Var.make K interp data scen vet (some vn) (some (.many Y)) none dflt
          = .ok v) :
    v.values = .vector ⟨Y, (data.filter (fun r => r.var = vn)).map (fun r =>
      (r.name, Y.map (fun y =>
        fillCell dflt (if y ∈ K then r.cellAt y else interp vn y r.name))))⟩ := by
  have hv : v = Var.fromValues data scen vet
      (.vector ((rawFrame K interp data vn Y).proj Y)) dflt := by
    simpa [Var.make] using h.symm
  subst hv
  simp only [Var.fromValues, fillValues, DF.fill]
  rw [rawFrame_eq]
  simp only [DF.proj, List.map_map, Function.comp]
  congr 1
  congr 1
  apply List.map_congr_left
  intro r _
  simp only [Function.comp, Prod.mk.injEq, true_and]
  rw [List.map_map]
  apply List.map_congr_left
  intro y hy
  simp only [Function.comp]
  rw [colVal_map_append (fun y => r.cellAt y) (fun y => interp vn y r.name)]
  rw [colVal_map (fun y => interp vn y r.name)]
  by_cases hk : y ∈ K
  · have he : y ∈ (Y.filter (fun y => y ∈ K)).dedup :=
      List.mem_dedup.mpr (List.mem_filter.mpr ⟨hy, by simpa using hk⟩)
    simp [he, hk]
  · have he : ¬ y ∈ (Y.filter (fun y => y ∈ K)).dedup := by
      intro hmem
      exact hk (by simpa using (List.mem_filter.mp (List.mem_dedup.mp hmem)).2)
    have hi : y ∈ (Y.filter (fun y => ¬ y ∈ K)).dedup :=
      List.mem_dedup.mpr (List.mem_filter.mpr ⟨hy, by simpa using hk⟩)
    simp [he, hi, hk, hy]

/-! ### Default fill -/

/-- No missing values anywhere in a values table. -/
def allFilled : VarValues → Bool
  | .scalar _ rs => rs.all (fun r => r.2.isSome)
  | .vector d => d.rows.all (fun r => r.2.all (fun c => c.isSome))

theorem fillCell_fillCell (d : ℚ) (c : Cell) :
    fillCell (some d) (fillCell (some d) c) = fillCell (some d) c := by
  cases c <;> rfl

theorem fillValues_idem (d : ℚ) (vv : VarValues) :
    fillValues (some d) (fillValues (some d) vv) = fillValues (some d) vv := by
  cases vv with
  | scalar t rs => simp [fillValues, List.map_map, Function.comp, fillCell_fillCell]
  | vector df =>
      cases df with
      | mk cols rows =>
          simp [fillValues, DF.fill, List.map_map, Function.comp, fillCell_fillCell]

theorem allFilled_fill (d : ℚ) (vv : VarValues) :
    allFilled (fillValues (some d) vv) = true := by
  cases vv with
  | scalar t rs =>
      simp [allFilled, fillValues, List.all_eq_true, fillCell]
  | vector df =>
      cases df with
      | mk cols rows =>
          simp [allFilled, fillValues, DF.fill, List.all_eq_true, fillCell]

theorem make_values_filled (knownYears : List String)
    (interp : String → String → String → Cell) (data : List DataRow)
    (scen vet : List ScenarioRow) (variab : Option String) (year : Option YearArg)
    (values : Option VarValues) (dflt : Option ℚ) (v : Var)
    (h : Var.make knownYears interp data scen vet variab year values dflt = .ok v) :
    ∃ vv, v.values = fillValues dflt vv := by
  cases variab with
  | none =>
      cases values with
      | none => simp [Var.make] at h
      | some vv =>
          simp only [Var.make] at h
          injection h with h2
          subst h2
          exact ⟨vv, rfl⟩
  | some vn =>
      cases values with
      | none =>
          simp only [Var.make] at h
          injection h with h2
          subst h2
          exact ⟨_, rfl⟩
      | some vv => simp [Var.make] at h

/-! ### Claims C6, C7, C9 -/

/-- **C6** (amended): for every `Var` constructed from a variable name with a
requested year list `Y`, the final values table has exactly the columns `Y` in
the requested order over the dataset rows of that variable; each cell of a
requested year inside the known-years set is the dataset cell, with no
interpolation involved, and each requested year outside the known-years set
carries the Interpolation Service's output for that exact year — in both cases
with the optional default fill applied on top (exact equality when no default
is given). -/
theorem claim_C6_construction_columns (K : List String)
    (interp : String → String → String → Cell) (data : List DataRow)
    (scen vet : List ScenarioRow) (vn : String) (Y : List String)
    (dflt : Option ℚ) (v : Var)
    (h : Var.make K interp data scen vet (some vn) (some (.many Y)) none dflt
          = .ok v) :
    v.values = .vector ⟨Y, (data.filter (fun r => r.var = vn)).map (fun r =>
      (r.name, Y.map (fun y =>
        fillCell dflt (if y ∈ K then r.cellAt y else interp vn y r.name))))⟩ :=
  make_many_values K interp data scen vet vn Y dflt v h

/-- Dataset fixture for claim C6: one scenario with a missing value at the
known year. -/
def dataC6x : List DataRow := [⟨"n1", "V", [("2020", none)]⟩]

/-- **C6** counterexample to the claim as stated: constructing with
`default = 0` on data with a missing known-year cell yields `0` where the
dataset holds NaN, so the known-year column is not taken directly from the
dataset rows, and the interpolated column (`0`) differs from the
interpolation service's output (NaN) for that year. -/
theorem claim_C6_counterexample :
    Var.make ["2020"] (fun _ _ _ => none) dataC6x [] []
        (some "V") (some (.many ["2020", "2025"])) none (some 0)
      = .ok ⟨dataC6x, [], [],
          .vector ⟨["2020", "2025"], [("n1", [some 0, some 0])]⟩, some 0⟩ ∧
    DataRow.cellAt ⟨"n1", "V", [("2020", none)]⟩ "2020" = none ∧
    (fun (_ _ _ : String) => (none : Cell)) "V" "2025" "n1" = none ∧
    some (0 : ℚ) ≠ (none : Cell) := by
  exact ⟨rfl, rfl, rfl, by simp⟩

/-- Dataset fixture for the C6 witness. -/
def dataC6 : List DataRow := [⟨"n", "V", [("2020", some 3)]⟩]

/-- Interpolation fixture for the C6 witness. -/
def interpC6 : String → String → String → Cell := fun _ _ _ => some 5

/-- Witness for C6: the amended characterisation evaluated on a concrete
construction mixing one known and one interpolated year. -/
theorem claim_C6_construction_columns_witness :
    Var.make ["2020"] interpC6 dataC6 [] []
        (some "V") (some (.many ["2020", "2025"])) none none
      = .ok ⟨dataC6, [], [],
          .vector ⟨["2020", "2025"], [("n", [some 3, some 5])]⟩, none⟩ ∧
    (⟨dataC6, [], [],
        .vector ⟨["2020", "2025"], [("n", [some 3, some 5])]⟩, none⟩ : Var).values
      = .vector ⟨["2020", "2025"], (dataC6.filter (fun r => r.var = "V")).map (fun r =>
          (r.name, ["2020", "2025"].map (fun y =>
            fillCell none (if y ∈ ["2020"] then r.cellAt y else interpC6 "V" y r.name))))⟩ :=
  ⟨rfl,
   claim_C6_construction_columns ["2020"] interpC6 dataC6 [] [] "V"
     ["2020", "2025"] none
     ⟨dataC6, [], [], .vector ⟨["2020", "2025"], [("n", [some 3, some 5])]⟩, none⟩
     rfl⟩

/-- **C7**: `Var`'s constructor signals the ambiguous-construction error
exactly when both or neither of the variable name and the explicit values
table are supplied — the condition depends on nothing else, so no values are
looked up first — and with exactly one of the two, construction proceeds past
this check and returns a `Var`. -/
theorem claim_C7_ambiguous_construction (knownYears : List String)
    (interp : String → String → String → Cell) (data : List DataRow)
    (scen vet : List ScenarioRow) (variab : Option String)
    (year : Option YearArg) (values : Option VarValues) (dflt : Option ℚ) :
    (Var.make knownYears interp data scen vet variab year values dflt
        = .error .ambiguousConstruction
      ↔ ((variab = none ∧ values = none) ∨ (variab.isSome ∧ values.isSome))) ∧
    ((variab.isSome ∧ values = none) ∨ (variab = none ∧ values.isSome) →
      ∃ v, Var.make knownYears interp data scen vet variab year values dflt
        = .ok v) := by
  cases variab with
  | none =>
      cases values with
      | none => simp [Var.make]
      | some vv => simp [Var.make]
  | some vn =>
      cases values with
      | none => simp [Var.make]
      | some vv => simp [Var.make]

/-- Witness for C7: the two-sided condition evaluated at a concrete
variable-name-only construction. -/
theorem claim_C7_ambiguous_construction_witness :
    (Var.make [] (fun _ _ _ => none) [] [] [] (some "V") none none none
        = .error .ambiguousConstruction
      ↔ (((some "V" : Option String) = none ∧ (none : Option VarValues) = none)
          ∨ ((some "V" : Option String).isSome ∧ (none : Option VarValues).isSome))) ∧
    (((some "V" : Option String).isSome ∧ (none : Option VarValues) = none)
        ∨ ((some "V" : Option String) = none ∧ (none : Option VarValues).isSome) →
      ∃ v, Var.make [] (fun _ _ _ => none) [] [] [] (some "V") none none none
        = .ok v) :=
  claim_C7_ambiguous_construction [] (fun _ _ _ => none) [] [] [] (some "V")
    none none none

/-- **C9**: the default fill applied at the end of `Var` construction is
idempotent — filling twice equals filling once — and every `Var` constructed
with a non-null default has no missing values in any column of its values
table. -/
theorem claim_C9_default_fill (d : ℚ) (vv : VarValues) (knownYears : List String)
    (interp : String → String → String → Cell) (data : List DataRow)
    (scen vet : List ScenarioRow) (variab : Option String) (year : Option YearArg)
    (values : Option VarValues) (v : Var)
    (h : Var.make knownYears interp data scen vet variab year values (some d)
          = .ok v) :
    fillValues (some d) (fillValues (some d) vv) = fillValues (some d) vv ∧
    allFilled v.values = true := by
  refine ⟨fillValues_idem d vv, ?_⟩
  obtain ⟨vv0, hvv⟩ := make_values_filled knownYears interp data scen vet
    variab year values (some d) v h
  rw [hvv]
  exact allFilled_fill d vv0

/-- Witness for C9: idempotence and total fill evaluated on a concrete
values-path construction with a missing entry. -/
theorem claim_C9_default_fill_witness :
    Var.make [] (fun _ _ _ => none) [] [] [] none none
        (some (.scalar "2020" [("a", none), ("b", some 2)])) (some 0)
      = .ok ⟨[], [], [], .scalar "2020" [("a", some 0), ("b", some 2)], some 0⟩ ∧
    (fillValues (some 0) (fillValues (some 0) (.scalar "y" [("a", none)]))
        = fillValues (some 0) (.scalar "y" [("a", none)]) ∧
      allFilled (⟨[], [], [], .scalar "2020" [("a", some 0), ("b", some 2)],
        some 0⟩ : Var).values = true) :=
  ⟨rfl,
   claim_C9_default_fill 0 (.scalar "y" [("a", none)]) [] (fun _ _ _ => none)
     [] [] [] none none (some (.scalar "2020" [("a", none), ("b", some 2)]))
     ⟨[], [], [], .scalar "2020" [("a", some 0), ("b", some 2)], some 0⟩
     rfl⟩

/-! ### Arithmetic alignment lemmas -/

theorem yearSetEqB_iff (l1 l2 : List String) :
    yearSetEqB l1 l2 = true ↔ (∀ y, y ∈ l1 ↔ y ∈ l2) := by
  simp only [yearSetEqB, Bool.and_eq_true, List.all_eq_true, decide_eq_true_eq]
  constructor
  · rintro ⟨h1, h2⟩ y
    exact ⟨fun hy => h1 y hy, fun hy => h2 y hy⟩
  · intro h
    exact ⟨fun y hy => (h y).mp hy, fun y hy => (h y).mpr hy⟩

theorem find?_fst_cons_pos {α : Type} {r : String × α} {rs : List (String × α)}
    {n : String} (h : r.1 = n) :
    (r :: rs).find? (fun p => decide (p.1 = n)) = some r :=
  List.find?_cons_of_pos _ (by simp [h])

theorem find?_fst_cons_neg {α : Type} {r : String × α} {rs : List (String × α)}
    {n : String} (h : ¬ r.1 = n) :
    (r :: rs).find? (fun p => decide (p.1 = n))
      = rs.find? (fun p => decide (p.1 = n)) :=
  List.find?_cons_of_neg _ (by simp [h])

theorem DF.cellOf_mk_cons (cols : List String) (r : String × List Cell)
    (rs : List (String × List Cell)) (n y : String) :
    DF.cellOf ⟨cols, r :: rs⟩ n y
      = if r.1 = n then colVal cols r.2 y else DF.cellOf ⟨cols, rs⟩ n y := by
  unfold DF.cellOf
  by_cases hr : r.1 = n
  · rw [find?_fst_cons_pos hr, if_pos hr]
  · rw [find?_fst_cons_neg hr, if_neg hr]

theorem seriesAt_cons (r : String × Cell) (rs : List (String × Cell)) (n : String) :
    seriesAt (r :: rs) n = if r.1 = n then r.2 else seriesAt rs n := by
  unfold seriesAt
  by_cases hr : r.1 = n
  · rw [find?_fst_cons_pos hr, if_pos hr]
  · rw [find?_fst_cons_neg hr, if_neg hr]

theorem DF.fill_cellOf_build (dflt : Option ℚ) (cols ns : List String)
    (F : String → String → Cell) (n y : String) :
    (DF.fill dflt ⟨cols, ns.map (fun m => (m, cols.map (F m)))⟩).cellOf n y
      = if n ∈ ns then (if y ∈ cols then fillCell dflt (F n y) else none)
        else none := by
  have hrows : (ns.map (fun m => (m, cols.map (F m)))).map
        (fun r => (r.1, r.2.map (fillCell dflt)))
      = ns.map (fun m => (m, cols.map (fun y => fillCell dflt (F m y)))) := by
    rw [List.map_map]
    apply List.map_congr_left
    intro m _
    simp [List.map_map, Function.comp_def]
  unfold DF.fill
  simp only [hrows]
  exact DF.cellOf_build cols ns (fun m y => fillCell dflt (F m y)) n y

theorem frameBinOp_cols (op : ℚ → ℚ → ℚ) (l r : DF) :
    (frameBinOp op l r).cols = unionLabels l.cols r.cols := rfl

theorem frameBinOp_names (op : ℚ → ℚ → ℚ) (l r : DF) :
    (frameBinOp op l r).names = unionLabels l.names r.names := by
  simp [frameBinOp, DF.names, List.map_map, Function.comp_def]

theorem frameBinOp_fill_cellOf (dflt : Option ℚ) (op : ℚ → ℚ → ℚ) (l r : DF)
    (n y : String) (hn : n ∈ unionLabels l.names r.names)
    (hy : y ∈ unionLabels l.cols r.cols) :
    (DF.fill dflt (frameBinOp op l r)).cellOf n y
      = fillCell dflt (combineCell op (l.cellOf n y) (r.cellOf n y)) := by
  simp only [frameBinOp]
  rw [DF.fill_cellOf_build]
  simp [hn, hy]

theorem frameBinOp_cellOf_right_miss (op : ℚ → ℚ → ℚ) (l r : DF) (n : String)
    (hmiss : ¬ n ∈ r.names) (y : String) :
    (frameBinOp op l r).cellOf n y = none := by
  simp only [frameBinOp]
  rw [DF.cellOf_build, DF.cellOf_not_mem hmiss]
  by_cases hn : n ∈ unionLabels l.names r.names
  · simp [hn, combineCell_none_right]
  · simp [hn]

theorem frameBinOp_cellOf_left_miss (op : ℚ → ℚ → ℚ) (l r : DF) (n : String)
    (hmiss : ¬ n ∈ l.names) (y : String) :
    (frameBinOp op l r).cellOf n y = none := by
  simp only [frameBinOp]
  rw [DF.cellOf_build, DF.cellOf_not_mem hmiss]
  by_cases hn : n ∈ unionLabels l.names r.names
  · simp [hn, combineCell_none_left]
  · simp [hn]

theorem broadcastFrame_cols (ylist : List String) (srows : List (String × Cell)) :
    (broadcastFrame ylist srows).cols = ylist.dedup := rfl

theorem broadcastFrame_names (ylist : List String) (srows : List (String × Cell)) :
    (broadcastFrame ylist srows).names = srows.map Prod.fst := by
  simp [broadcastFrame, DF.names, List.map_map, Function.comp]

theorem broadcastFrame_cellOf (ylist : List String) (srows : List (String × Cell))
    (n y : String) (hy : y ∈ ylist) :
    (broadcastFrame ylist srows).cellOf n y = seriesAt srows n := by
  induction srows with
  | nil => rfl
  | cons r rs ih =>
      simp only [broadcastFrame, List.map_cons] at *
      rw [DF.cellOf_mk_cons, seriesAt_cons]
      by_cases hr : r.1 = n
      · rw [if_pos hr, if_pos hr, colVal_map (fun _ => r.2)]
        simp [List.mem_dedup, hy]
      · rw [if_neg hr, if_neg hr, ih]

theorem seriesBinOp_names (op : ℚ → ℚ → ℚ) (l r : List (String × Cell)) :
    (seriesBinOp op l r).map Prod.fst
      = unionLabels (l.map Prod.fst) (r.map Prod.fst) := by
  simp [seriesBinOp, List.map_map, Function.comp_def]

theorem seriesBinOp_at (op : ℚ → ℚ → ℚ) (l r : List (String × Cell)) (n : String)
    (hn : n ∈ unionLabels (l.map Prod.fst) (r.map Prod.fst)) :
    seriesAt (seriesBinOp op l r) n = combineCell op (seriesAt l n) (seriesAt r n) := by
  simp only [seriesBinOp]
  rw [seriesAt_keyed]
  simp [hn]

/-! ### Claims C3, C4, C5 -/

/-- **C3**: for two vector-mode `Var`s (with duplicate-free year labels, the
only shape `pandas` arithmetic accepts), every binary arithmetic operation
fails with the year-incompatibility signal exactly when the year-label sets
differ as unordered sets; when they are equal the operation succeeds, and
cells are combined columnwise with years matched by label.  Instantiating
`op` with addition, subtraction, multiplication and division covers
`Var.add`, `Var.sub`, `Var.mul` and `Var.div`. -/
theorem claim_C3_incompatible_years (op : ℚ → ℚ → ℚ) (v w : Var) (dv dw : DF)
    (hv : v.values = .vector dv) (hw : w.values = .vector dw)
    (hnd1 : dv.cols.Nodup) (hnd2 : dw.cols.Nodup) :
    (Var.binop op v (.var w) = .error .incompatibleYears
        ↔ ¬ (∀ y, y ∈ dv.cols ↔ y ∈ dw.cols)) ∧
    ((∀ y, y ∈ dv.cols ↔ y ∈ dw.cols) →
      ∃ u, Var.binop op v (.var w) = .ok u ∧
        ∀ n y x z, dv.cellOf n y = some x → dw.cellOf n y = some z →
          u.cellOf n y = some (op x z)) := by
  have hb : Var.binop op v (.var w)
      = (if yearSetEqB dv.cols dw.cols then
          .ok (Var.fromValues v.data v.scenarios v.vettedScenarios
            (.vector (frameBinOp op dv dw)) v.default)
         else .error .incompatibleYears) := by
    simp [Var.binop, hv, hw]
  have hiff := yearSetEqB_iff dv.cols dw.cols
  constructor
  · rw [hb]
    by_cases hEq : yearSetEqB dv.cols dw.cols = true
    · rw [if_pos hEq]
      constructor
      · intro hcontra; exact absurd hcontra (by simp)
      · intro hne; exact absurd (hiff.mp hEq) hne
    · rw [if_neg hEq]
      constructor
      · intro _ hall; exact hEq (hiff.mpr hall)
      · intro _; rfl
  · intro hall
    have hEq : yearSetEqB dv.cols dw.cols = true := hiff.mpr hall
    rw [hb, if_pos hEq]
    refine ⟨_, rfl, ?_⟩
    intro n y x z hx hz
    have hn : n ∈ unionLabels dv.names dw.names :=
      mem_unionLabels.mpr (Or.inl (DF.cellOf_some_name hx))
    have hy : y ∈ unionLabels dv.cols dw.cols :=
      mem_unionLabels.mpr (Or.inl (DF.cellOf_some_col hx))
    show (DF.fill v.default (frameBinOp op dv dw)).cellOf n y = some (op x z)
    rw [frameBinOp_fill_cellOf v.default op dv dw n y hn hy, hx, hz]
    simp [combineCell, fillCell_some]

/-- Fixtures for the C3 witness: two vector-mode `Var`s over the same year
set listed in different orders. -/
def varC3l : Var := ⟨[], [], [], .vector ⟨["2020", "2030"], [("a", [some 1, some 2])]⟩, none⟩

/-- Right operand fixture for the C3 witness. -/
def varC3r : Var := ⟨[], [], [], .vector ⟨["2030", "2020"], [("a", [some 10, some 20])]⟩, none⟩

/-- Witness for C3: the year-set criterion and the label-matched combination
evaluated on concrete vector-mode operands. -/
theorem claim_C3_incompatible_years_witness :
    (Var.binop (· + ·) varC3l (.var varC3r) = .error .incompatibleYears
        ↔ ¬ (∀ y, y ∈ ["2020", "2030"] ↔ y ∈ ["2030", "2020"])) ∧
    ((∀ y, y ∈ ["2020", "2030"] ↔ y ∈ ["2030", "2020"]) →
      ∃ u, Var.binop (· + ·) varC3l (.var varC3r) = .ok u ∧
        ∀ n y x z,
          DF.cellOf ⟨["2020", "2030"], [("a", [some 1, some 2])]⟩ n y = some x →
          DF.cellOf ⟨["2030", "2020"], [("a", [some 10, some 20])]⟩ n y = some z →
          u.cellOf n y = some (x + z)) :=
  claim_C3_incompatible_years (· + ·) varC3l varC3r
    ⟨["2020", "2030"], [("a", [some 1, some 2])]⟩
    ⟨["2030", "2020"], [("a", [some 10, some 20])]⟩
    rfl rfl (by decide) (by decide)

/-- **C4**: vector `OP` scalar broadcasts the scalar operand's single column
across every year of the vector operand (symmetrically for scalar `OP`
vector); the result is a vector-mode `Var` whose year list equals the vector
operand's years, and each cell at scenario `n` and year `y` combines the
vector operand's `(n, y)` value with the scalar operand's value at `n`
(duplicate-free year labels, the only shape `pandas` arithmetic accepts).
Instantiating `op` covers the four operators. -/
theorem claim_C4_scalar_broadcast (op : ℚ → ℚ → ℚ) (v s : Var) (d : DF)
    (t : String) (rs : List (String × Cell))
    (hv : v.values = .vector d) (hs : s.values = .scalar t rs)
    (hnd : d.cols.Nodup) :
    (∃ u, Var.binop op v (.var s) = .ok u ∧ u.isVector = true ∧
        u.yearLabels = d.cols ∧
        ∀ n y x z, d.cellOf n y = some x → seriesAt rs n = some z →
          u.cellOf n y = some (op x z)) ∧
    (∃ u, Var.binop op s (.var v) = .ok u ∧ u.isVector = true ∧
        u.yearLabels = d.cols ∧
        ∀ n y x z, d.cellOf n y = some x → seriesAt rs n = some z →
          u.cellOf n y = some (op z x)) := by
  have hdedup : d.cols.dedup = d.cols := List.dedup_eq_self.mpr hnd
  have hbc_cols : (broadcastFrame d.cols rs).cols = d.cols := by
    rw [broadcastFrame_cols, hdedup]
  constructor
  · have hb : Var.binop op v (.var s)
        = .ok (Var.fromValues v.data v.scenarios v.vettedScenarios
            (.vector (frameBinOp op d (broadcastFrame d.cols rs))) v.default) := by
      simp [Var.binop, hv, hs]
    refine ⟨_, hb, rfl, ?_, ?_⟩
    · show (DF.fill v.default (frameBinOp op d (broadcastFrame d.cols rs))).cols = d.cols
      rw [show (DF.fill v.default (frameBinOp op d (broadcastFrame d.cols rs))).cols
            = (frameBinOp op d (broadcastFrame d.cols rs)).cols from rfl]
      rw [frameBinOp_cols, hbc_cols]
      simp [unionLabels]
    · intro n y x z hx hz
      have hyd : y ∈ d.cols := DF.cellOf_some_col hx
      have hn : n ∈ unionLabels d.names (broadcastFrame d.cols rs).names :=
        mem_unionLabels.mpr (Or.inl (DF.cellOf_some_name hx))
      have hy : y ∈ unionLabels d.cols (broadcastFrame d.cols rs).cols :=
        mem_unionLabels.mpr (Or.inl hyd)
      show (DF.fill v.default (frameBinOp op d (broadcastFrame d.cols rs))).cellOf n y
        = some (op x z)
      rw [frameBinOp_fill_cellOf v.default op d (broadcastFrame d.cols rs) n y hn hy]
      rw [broadcastFrame_cellOf d.cols rs n y hyd, hx, hz]
      simp [combineCell, fillCell_some]
  · have hb : Var.binop op s (.var v)
        = .ok (Var.fromValues s.data s.scenarios s.vettedScenarios
            (.vector (frameBinOp op (broadcastFrame d.cols rs) d)) s.default) := by
      simp [Var.binop, hv, hs]
    refine ⟨_, hb, rfl, ?_, ?_⟩
    · show (DF.fill s.default (frameBinOp op (broadcastFrame d.cols rs) d)).cols = d.cols
      rw [show (DF.fill s.default (frameBinOp op (broadcastFrame d.cols rs) d)).cols
            = (frameBinOp op (broadcastFrame d.cols rs) d).cols from rfl]
      rw [frameBinOp_cols, hbc_cols]
      simp [unionLabels]
    · intro n y x z hx hz
      have hyd : y ∈ d.cols := DF.cellOf_some_col hx
      have hn : n ∈ unionLabels (broadcastFrame d.cols rs).names d.names :=
        mem_unionLabels.mpr (Or.inr (DF.cellOf_some_name hx))
      have hy : y ∈ unionLabels (broadcastFrame d.cols rs).cols d.cols :=
        mem_unionLabels.mpr (Or.inr hyd)
      show (DF.fill s.default (frameBinOp op (broadcastFrame d.cols rs) d)).cellOf n y
        = some (op z x)
      rw [frameBinOp_fill_cellOf s.default op (broadcastFrame d.cols rs) d n y hn hy]
      rw [broadcastFrame_cellOf d.cols rs n y hyd, hx, hz]
      simp [combineCell, fillCell_some]

/-- Vector-mode fixture for the C4 witness. -/
def varC4v : Var := ⟨[], [], [], .vector ⟨["2020", "2030"], [("a", [some 1, some 2])]⟩, none⟩

/-- Scalar-mode fixture for the C4 witness. -/
def varC4s : Var := ⟨[], [], [], .scalar "2025" [("a", some 10)], none⟩

/-- Witness for C4: the broadcast characterisation evaluated on a concrete
vector-mode and scalar-mode pair. -/
theorem claim_C4_scalar_broadcast_witness :
    (∃ u, Var.binop (· + ·) varC4v (.var varC4s) = .ok u ∧ u.isVector = true ∧
        u.yearLabels = ["2020", "2030"] ∧
        ∀ n y x z,
          DF.cellOf ⟨["2020", "2030"], [("a", [some 1, some 2])]⟩ n y = some x →
          seriesAt [("a", some 10)] n = some z →
          u.cellOf n y = some (x + z)) ∧
    (∃ u, Var.binop (· + ·) varC4s (.var varC4v) = .ok u ∧ u.isVector = true ∧
        u.yearLabels = ["2020", "2030"] ∧
        ∀ n y x z,
          DF.cellOf ⟨["2020", "2030"], [("a", [some 1, some 2])]⟩ n y = some x →
          seriesAt [("a", some 10)] n = some z →
          u.cellOf n y = some (z + x)) :=
  claim_C4_scalar_broadcast (· + ·) varC4v varC4s
    ⟨["2020", "2030"], [("a", [some 1, some 2])]⟩ "2025" [("a", some 10)]
    rfl rfl (by decide)

theorem frameBinOp_missing_row (op : ℚ → ℚ → ℚ) (A B : DF) (n : String)
    (hmiss : (n ∈ A.names ∧ ¬ n ∈ B.names) ∨ (n ∈ B.names ∧ ¬ n ∈ A.names)) :
    n ∈ (frameBinOp op A B).names ∧ ∀ y, (frameBinOp op A B).cellOf n y = none := by
  constructor
  · rw [frameBinOp_names]
    rcases hmiss with ⟨h1, _⟩ | ⟨h1, _⟩
    · exact mem_unionLabels.mpr (Or.inl h1)
    · exact mem_unionLabels.mpr (Or.inr h1)
  · intro y
    rcases hmiss with ⟨_, h2⟩ | ⟨_, h2⟩
    · exact frameBinOp_cellOf_right_miss op A B n h2 y
    · exact frameBinOp_cellOf_left_miss op A B n h2 y

/-- **C5** (amended): in every binary arithmetic operation between two
`Var`s, a scenario identity present in only one operand never causes an
error — the only error any operator raises is the year-incompatibility of
two vector operands — and, when the left operand carries no default fill,
such a scenario yields a row of missing values in the resulting `Var`'s
values table (with a default set, those entries are filled with the default
instead).  Instantiating `op` covers the four operators. -/
theorem claim_C5_missing_scenario (op : ℚ → ℚ → ℚ) (v w : Var)
    (hd : v.default = none) :
    (∀ e, Var.binop op v (.var w) = .error e →
      e = .incompatibleYears ∧ ∃ dv dw, v.values = .vector dv ∧
        w.values = .vector dw ∧ yearSetEqB dv.cols dw.cols = false) ∧
    (∀ u n, Var.binop op v (.var w) = .ok u →
      ((n ∈ v.namesList ∧ ¬ n ∈ w.namesList) ∨
        (n ∈ w.namesList ∧ ¬ n ∈ v.namesList)) →
      n ∈ u.namesList ∧ ∀ y, u.cellOf n y = none) := by
  constructor
  · intro e he
    cases hvv : v.values with
    | scalar t1 rs1 =>
        cases hww : w.values with
        | scalar t2 rs2 => simp [Var.binop, hvv, hww] at he
        | vector dw => simp [Var.binop, hvv, hww] at he
    | vector dv =>
        cases hww : w.values with
        | scalar t2 rs2 => simp [Var.binop, hvv, hww] at he
        | vector dw =>
            by_cases hEq : yearSetEqB dv.cols dw.cols = true
            · simp [Var.binop, hvv, hww, hEq] at he
            · have hEq2 : yearSetEqB dv.cols dw.cols = false := by simpa using hEq
              simp [Var.binop, hvv, hww, hEq2] at he
              exact ⟨he.symm, dv, dw, rfl, rfl, hEq2⟩
  · intro u n hu hmiss
    simp only [Var.namesList] at hmiss
    cases hvv : v.values with
    | scalar t1 rs1 =>
        rw [hvv] at hmiss
        cases hww : w.values with
        | scalar t2 rs2 =>
            rw [hww] at hmiss
            simp only [VarValues.namesList] at hmiss
            simp only [Var.binop, hvv, hww] at hu
            injection hu with hu2
            subst hu2
            have hvals : (Var.fromValues v.data v.scenarios v.vettedScenarios
                (.scalar (if t1 = t2 then t1 else "None") (seriesBinOp op rs1 rs2))
                v.default).values
                = .scalar (if t1 = t2 then t1 else "None") (seriesBinOp op rs1 rs2) := by
              simp [Var.fromValues, hd, fillValues_none]
            have hn : n ∈ unionLabels (rs1.map Prod.fst) (rs2.map Prod.fst) := by
              rcases hmiss with ⟨h1, _⟩ | ⟨h1, _⟩
              · exact mem_unionLabels.mpr (Or.inl h1)
              · exact mem_unionLabels.mpr (Or.inr h1)
            constructor
            · simp only [Var.namesList, hvals, VarValues.namesList, seriesBinOp_names]
              exact hn
            · intro y
              simp only [Var.cellOf, hvals]
              rw [seriesBinOp_at op rs1 rs2 n hn]
              rcases hmiss with ⟨_, h2⟩ | ⟨_, h2⟩
              · rw [seriesAt_not_mem h2, combineCell_none_right]
              · rw [seriesAt_not_mem h2, combineCell_none_left]
        | vector dw =>
            rw [hww] at hmiss
            simp only [VarValues.namesList] at hmiss
            simp only [Var.binop, hvv, hww] at hu
            injection hu with hu2
            subst hu2
            have hvals : (Var.fromValues v.data v.scenarios v.vettedScenarios
                (.vector (frameBinOp op (broadcastFrame dw.cols rs1) dw))
                v.default).values
                = .vector (frameBinOp op (broadcastFrame dw.cols rs1) dw) := by
              simp [Var.fromValues, hd, fillValues_none]
            have hmiss2 : (n ∈ (broadcastFrame dw.cols rs1).names ∧ ¬ n ∈ dw.names)
                ∨ (n ∈ dw.names ∧ ¬ n ∈ (broadcastFrame dw.cols rs1).names) := by
              rw [broadcastFrame_names]
              exact hmiss
            obtain ⟨hmem, hcells⟩ := frameBinOp_missing_row op _ dw n hmiss2
            constructor
            · simpa only [Var.namesList, hvals, VarValues.namesList] using hmem
            · intro y
              simp only [Var.cellOf, hvals]
              exact hcells y
    | vector dv =>
        rw [hvv] at hmiss
        cases hww : w.values with
        | scalar t2 rs2 =>
            rw [hww] at hmiss
            simp only [VarValues.namesList] at hmiss
            simp only [Var.binop, hvv, hww] at hu
            injection hu with hu2
            subst hu2
            have hvals : (Var.fromValues v.data v.scenarios v.vettedScenarios
                (.vector (frameBinOp op dv (broadcastFrame dv.cols rs2)))
                v.default).values
                = .vector (frameBinOp op dv (broadcastFrame dv.cols rs2)) := by
              simp [Var.fromValues, hd, fillValues_none]
            have hmiss2 : (n ∈ dv.names ∧ ¬ n ∈ (broadcastFrame dv.cols rs2).names)
                ∨ (n ∈ (broadcastFrame dv.cols rs2).names ∧ ¬ n ∈ dv.names) := by
              rw [broadcastFrame_names]
              exact hmiss
            obtain ⟨hmem, hcells⟩ := frameBinOp_missing_row op dv _ n hmiss2
            constructor
            · simpa only [Var.namesList, hvals, VarValues.namesList] using hmem
            · intro y
              simp only [Var.cellOf, hvals]
              exact hcells y
        | vector dw =>
            rw [hww] at hmiss
            simp only [VarValues.namesList] at hmiss
            by_cases hEq : yearSetEqB dv.cols dw.cols = true
            · simp only [Var.binop, hvv, hww, hEq, if_true] at hu
              injection hu with hu2
              subst hu2
              have hvals : (Var.fromValues v.data v.scenarios v.vettedScenarios
                  (.vector (frameBinOp op dv dw)) v.default).values
                  = .vector (frameBinOp op dv dw) := by
                simp [Var.fromValues, hd, fillValues_none]
              obtain ⟨hmem, hcells⟩ := frameBinOp_missing_row op dv dw n hmiss
              constructor
              · simpa only [Var.namesList, hvals, VarValues.namesList] using hmem
              · intro y
                simp only [Var.cellOf, hvals]
                exact hcells y
            · have hEq2 : yearSetEqB dv.cols dw.cols = false := by simpa using hEq
              simp [Var.binop, hvv, hww, hEq2] at hu

/-- **C5** counterexample to the claim as stated: when the left operand has
`default = 0`, a scenario present only in one operand does not yield a row
of missing values — the default fill turns the whole row into `0`s in the
resulting `Var`'s values table. -/
theorem claim_C5_counterexample :
    Var.binop (· + ·) ⟨[], [], [], .vector ⟨["2020"], [("a", [some 1])]⟩, some 0⟩
        (.var ⟨[], [], [], .vector ⟨["2020"], [("b", [some 2])]⟩, none⟩)
      = .ok ⟨[], [], [],
          .vector ⟨["2020"], [("a", [some 0]), ("b", [some 0])]⟩, some 0⟩ ∧
    Var.cellOf ⟨[], [], [],
        .vector ⟨["2020"], [("a", [some 0]), ("b", [some 0])]⟩, some 0⟩
      "b" "2020" = some 0 ∧
    some (0 : ℚ) ≠ (none : Cell) := by
  exact ⟨rfl, rfl, by simp⟩

/-- Left fixture for the C5 witness (no default fill). -/
def varC5l : Var := ⟨[], [], [], .vector ⟨["2020"], [("a", [some 1])]⟩, none⟩

/-- Right fixture for the C5 witness. -/
def varC5r : Var := ⟨[], [], [], .vector ⟨["2020"], [("b", [some 2])]⟩, none⟩

/-- Witness for C5: the no-error/missing-row property evaluated on concrete
operands whose scenario sets are disjoint. -/
theorem claim_C5_missing_scenario_witness :
    (∀ e, Var.binop (· + ·) varC5l (.var varC5r) = .error e →
      e = .incompatibleYears ∧ ∃ dv dw, varC5l.values = .vector dv ∧
        varC5r.values = .vector dw ∧ yearSetEqB dv.cols dw.cols = false) ∧
    (∀ u n, Var.binop (· + ·) varC5l (.var varC5r) = .ok u →
      ((n ∈ varC5l.namesList ∧ ¬ n ∈ varC5r.namesList) ∨
        (n ∈ varC5r.namesList ∧ ¬ n ∈ varC5l.namesList)) →
      n ∈ u.namesList ∧ ∀ y, u.cellOf n y = none) :=
  claim_C5_missing_scenario (· + ·) varC5l varC5r rfl

/-! ### Selection engine lemmas -/

theorem applyCat_ok_mem (cat : Option FilterArg) (sel sel' : List ScenarioRow)
    (e : List String) (h : applyCat cat sel = .ok (sel', e)) (r : ScenarioRow)
    (hr : r ∈ sel') :
    r ∈ sel ∧ ∀ a cs, cat = some a → resolveArg allCategories a = .ok cs →
      catMatch cs r = true := by
  cases cat with
  | none =>
      simp only [applyCat, Except.ok.injEq, Prod.mk.injEq] at h
      obtain ⟨hsel, _⟩ := h
      subst hsel
      exact ⟨hr, fun a cs ha => nomatch ha⟩
  | some a =>
      simp only [applyCat] at h
      cases hres : resolveArg allCategories a with
      | error e2 => rw [hres] at h; simp at h
      | ok cs =>
          rw [hres] at h
          simp only [Except.ok.injEq, Prod.mk.injEq] at h
          obtain ⟨hsel, _⟩ := h
          subst hsel
          have hm := List.mem_filter.mp hr
          refine ⟨hm.1, ?_⟩
          intro a' cs' ha hres'
          injection ha with ha2
          subst ha2
          rw [hres] at hres'
          injection hres' with ht
          subst ht
          exact hm.2

theorem applyIp_ok_mem (ipS : List (String × String)) (ip : Option FilterArg)
    (sel sel' : List ScenarioRow) (e : List String)
    (h : applyIp ipS ip sel = .ok (sel', e)) (r : ScenarioRow) (hr : r ∈ sel') :
    r ∈ sel ∧ ∀ a tags, ip = some a → resolveArg (mapKeys ipS) a = .ok tags →
      r.name ∈ canonOf ipS tags := by
  cases ip with
  | none =>
      simp only [applyIp, Except.ok.injEq, Prod.mk.injEq] at h
      obtain ⟨hsel, _⟩ := h
      subst hsel
      exact ⟨hr, fun a tags ha => nomatch ha⟩
  | some a =>
      simp only [applyIp] at h
      cases hres : resolveArg (mapKeys ipS) a with
      | error e2 => rw [hres] at h; simp at h
      | ok tags =>
          rw [hres] at h
          simp only [Except.ok.injEq, Prod.mk.injEq] at h
          obtain ⟨hsel, _⟩ := h
          subst hsel
          have hm := List.mem_filter.mp hr
          refine ⟨hm.1, ?_⟩
          intro a' tags' ha hres'
          injection ha with ha2
          subst ha2
          rw [hres] at hres'
          injection hres' with ht
          subst ht
          simpa using hm.2

theorem addBack_mem (full : List ScenarioRow) (canon : List String) :
    ∀ (sel sel' : List ScenarioRow), addBack full sel canon = .ok sel' →
      ∀ r ∈ sel', r ∈ sel ∨ (r ∈ full ∧ r.name ∈ canon) := by
  induction canon with
  | nil =>
      intro sel sel' h r hr
      simp only [addBack] at h
      injection h with h2
      subst h2
      exact Or.inl hr
  | cons c cs ih =>
      intro sel sel' h r hr
      simp only [addBack] at h
      by_cases hany : sel.any (fun r => decide (r.name = c)) = true
      · rw [if_pos hany] at h
        rcases ih sel sel' h r hr with h1 | ⟨h2, h3⟩
        · exact Or.inl h1
        · exact Or.inr ⟨h2, List.mem_cons_of_mem _ h3⟩
      · rw [if_neg hany] at h
        cases hfind : full.find? (fun r => decide (r.name = c)) with
        | none => rw [hfind] at h; simp at h
        | some r0 =>
            rw [hfind] at h
            rcases ih _ sel' h r hr with h1 | ⟨h2, h3⟩
            · rcases List.mem_append.mp h1 with h4 | h4
              · exact Or.inl h4
              · have hr0 : r = r0 := by simpa using h4
                subst hr0
                refine Or.inr ⟨List.mem_of_find?_eq_some hfind, ?_⟩
                have hname : r.name = c := by simpa using List.find?_some hfind
                rw [hname]
                exact List.mem_cons_self _ _
            · exact Or.inr ⟨h2, List.mem_cons_of_mem _ h3⟩

theorem addBack_mono (full : List ScenarioRow) (canon : List String) :
    ∀ (sel sel' : List ScenarioRow), addBack full sel canon = .ok sel' →
      ∀ r ∈ sel, r ∈ sel' := by
  induction canon with
  | nil =>
      intro sel sel' h r hr
      simp only [addBack] at h
      injection h with h2
      subst h2
      exact hr
  | cons c cs ih =>
      intro sel sel' h r hr
      simp only [addBack] at h
      by_cases hany : sel.any (fun r => decide (r.name = c)) = true
      · rw [if_pos hany] at h
        exact ih sel sel' h r hr
      · rw [if_neg hany] at h
        cases hfind : full.find? (fun r => decide (r.name = c)) with
        | none => rw [hfind] at h; simp at h
        | some r0 =>
            rw [hfind] at h
            exact ih _ sel' h r (List.mem_append.mpr (Or.inl hr))

theorem addBack_covers (full : List ScenarioRow) (canon : List String) :
    ∀ (sel sel' : List ScenarioRow), addBack full sel canon = .ok sel' →
      ∀ c ∈ canon, ∃ r, r ∈ sel' ∧ r.name = c := by
  induction canon with
  | nil =>
      intro sel sel' _ c hc
      cases hc
  | cons c0 cs ih =>
      intro sel sel' h c hc
      simp only [addBack] at h
      by_cases hany : sel.any (fun r => decide (r.name = c0)) = true
      · rw [if_pos hany] at h
        rcases List.mem_cons.mp hc with hceq | hcs
        · subst hceq
          obtain ⟨r, hr1, hr2⟩ := List.any_eq_true.mp hany
          have hrname : r.name = c := by simpa using hr2
          exact ⟨r, addBack_mono full cs sel sel' h r hr1, hrname⟩
        · exact ih sel sel' h c hcs
      · rw [if_neg hany] at h
        cases hfind : full.find? (fun r => decide (r.name = c0)) with
        | none => rw [hfind] at h; simp at h
        | some r0 =>
            rw [hfind] at h
            rcases List.mem_cons.mp hc with hceq | hcs
            · subst hceq
              have hname : r0.name = c := by simpa using List.find?_some hfind
              refine ⟨r0, ?_, hname⟩
              exact addBack_mono full cs _ sel' h r0
                (List.mem_append.mpr (Or.inr (by simp)))
            · exact ih _ sel' h c hcs

theorem applySsp_ok_mem (sspS : List (String × String)) (full : List ScenarioRow)
    (ssp : Option FilterArg) (sel sel' : List ScenarioRow) (e : List String)
    (h : applySsp sspS full ssp sel = .ok (sel', e)) (r : ScenarioRow)
    (hr : r ∈ sel') :
    (ssp = none ∧ r ∈ sel) ∨
    (∃ a tags, ssp = some a ∧ resolveArg (mapKeys sspS) a = .ok tags ∧
      r.name ∈ canonOf sspS tags ∧ (r ∈ sel ∨ r ∈ full)) := by
  cases ssp with
  | none =>
      simp only [applySsp, Except.ok.injEq, Prod.mk.injEq] at h
      obtain ⟨hsel, _⟩ := h
      subst hsel
      exact Or.inl ⟨rfl, hr⟩
  | some a =>
      simp only [applySsp] at h
      cases hres : resolveArg (mapKeys sspS) a with
      | error e2 => rw [hres] at h; simp at h
      | ok tags =>
          simp only [hres] at h
          cases hab : addBack full
              (sel.filter (fun r => decide (r.name ∈ canonOf sspS tags)))
              (canonOf sspS tags) with
          | error e2 => simp [hab] at h
          | ok sel2 =>
              simp only [hab, Except.ok.injEq, Prod.mk.injEq] at h
              obtain ⟨hsel, _⟩ := h
              subst hsel
              rcases addBack_mem full (canonOf sspS tags) _ _ hab r hr with h1 | ⟨h2, h3⟩
              · have hm := List.mem_filter.mp h1
                exact Or.inr ⟨a, tags, rfl, hres, by simpa using hm.2, Or.inl hm.1⟩
              · exact Or.inr ⟨a, tags, rfl, hres, h3, Or.inr h2⟩

theorem applySsp_ok_covers (sspS : List (String × String)) (full : List ScenarioRow)
    (a : FilterArg) (sel sel' : List ScenarioRow) (e : List String)
    (tags : List String)
    (h : applySsp sspS full (some a) sel = .ok (sel', e))
    (hres : resolveArg (mapKeys sspS) a = .ok tags) :
    ∀ c ∈ canonOf sspS tags, ∃ r, r ∈ sel' ∧ r.name = c := by
  simp only [applySsp, hres] at h
  cases hab : addBack full
      (sel.filter (fun r => decide (r.name ∈ canonOf sspS tags)))
      (canonOf sspS tags) with
  | error e2 => simp [hab] at h
  | ok sel2 =>
      simp only [hab, Except.ok.injEq, Prod.mk.injEq] at h
      obtain ⟨hsel, _⟩ := h
      subst hsel
      exact addBack_covers full (canonOf sspS tags) _ _ hab

theorem applySsp_ok_names_sub (sspS : List (String × String))
    (full : List ScenarioRow) (ssp : Option FilterArg)
    (selT selF selT' selF' : List ScenarioRow) (eT eF : List String)
    (hT : applySsp sspS full ssp selT = .ok (selT', eT))
    (hF : applySsp sspS full ssp selF = .ok (selF', eF))
    (hsub : ∀ r ∈ selT, r ∈ selF) :
    ∀ n, (∃ r, r ∈ selT' ∧ r.name = n) → ∃ r, r ∈ selF' ∧ r.name = n := by
  rintro n ⟨r, hrT, hname⟩
  rcases applySsp_ok_mem sspS full ssp selT selT' eT hT r hrT with
    ⟨hnone, hrsel⟩ | ⟨a, tags, hsome, hres, hcanon, _⟩
  · subst hnone
    simp only [applySsp, Except.ok.injEq, Prod.mk.injEq] at hF
    obtain ⟨hselF, _⟩ := hF
    subst hselF
    exact ⟨r, hsub r hrsel, hname⟩
  · subst hsome
    obtain ⟨r', hr', hname'⟩ :=
      applySsp_ok_covers sspS full a selF selF' eF tags hF hres r.name hcanon
    exact ⟨r', hr', hname ▸ hname'⟩

theorem mem_insertRow {β : Type} {x a : SelRow β} {l : List (SelRow β)} :
    a ∈ insertRow x l ↔ a = x ∨ a ∈ l := by
  induction l with
  | nil => simp [insertRow]
  | cons y ys ih =>
      unfold insertRow
      by_cases h : extraLT y.extra x.extra
      · simp only [h, if_true, List.mem_cons, ih]
        tauto
      · simp [h, List.mem_cons]

theorem mem_sortRows {β : Type} {a : SelRow β} {l : List (SelRow β)} :
    a ∈ l.foldr insertRow [] ↔ a ∈ l := by
  induction l with
  | nil => simp
  | cons x xs ih =>
      simp only [List.foldr_cons]
      rw [mem_insertRow, ih, List.mem_cons]

theorem mem_runSelect {sel : List ScenarioRow} {ecols : List String}
    {rows : List (String × List Cell)} {row : SelRow (List Cell)} :
    row ∈ runSelect sel ecols rows ↔
      ∃ r, r ∈ rows ∧ (∃ s, s ∈ sel ∧ s.name = r.1) ∧
        (⟨extraOf sel ecols r.1, r.1, r.2⟩ : SelRow (List Cell)) = row := by
  unfold runSelect
  rw [mem_sortRows]
  constructor
  · intro hmem
    obtain ⟨r, hr, hfr⟩ := List.mem_map.mp hmem
    have hf := List.mem_filter.mp hr
    obtain ⟨s, hs, hsn⟩ := List.any_eq_true.mp hf.2
    exact ⟨r, hf.1, ⟨s, hs, by simpa using hsn⟩, hfr⟩
  · rintro ⟨r, hr, ⟨s, hs, hsn⟩, hfr⟩
    apply List.mem_map.mpr
    refine ⟨r, List.mem_filter.mpr ⟨hr, ?_⟩, hfr⟩
    exact List.any_eq_true.mpr ⟨s, hs, by simpa using hsn⟩

theorem buildSel_names_mem (sel : List ScenarioRow) (ecols : List String)
    (vv : VarValues) (n : String) :
    n ∈ (buildSel sel ecols vv).namesList ↔
      n ∈ vv.namesList ∧ ∃ s, s ∈ sel ∧ s.name = n := by
  cases vv with
  | vector d =>
      simp only [buildSel, Sel.namesList, VarValues.namesList, DF.names]
      constructor
      · intro h
        obtain ⟨row, hrow, hname⟩ := List.mem_map.mp h
        obtain ⟨r, hr, ⟨s, hs, hsn⟩, hfr⟩ := mem_runSelect.mp hrow
        subst hfr
        have hrn : r.1 = n := by simpa using hname
        subst hrn
        exact ⟨List.mem_map.mpr ⟨r, hr, rfl⟩, s, hs, hsn⟩
      · rintro ⟨hvals, s, hs, hsn⟩
        obtain ⟨r, hr, hrn⟩ := List.mem_map.mp hvals
        apply List.mem_map.mpr
        refine ⟨⟨extraOf sel ecols r.1, r.1, r.2⟩, ?_, hrn⟩
        exact mem_runSelect.mpr ⟨r, hr, ⟨s, hs, by rw [hsn, hrn]⟩, rfl⟩
  | scalar t rs =>
      simp only [buildSel, Sel.namesList, VarValues.namesList, List.map_map]
      constructor
      · intro h
        obtain ⟨row, hrow, hname⟩ := List.mem_map.mp h
        obtain ⟨r, hr, ⟨s, hs, hsn⟩, hfr⟩ := mem_runSelect.mp hrow
        subst hfr
        have hrn : r.1 = n := by simpa using hname
        obtain ⟨r0, hr0, hr0eq⟩ := List.mem_map.mp hr
        refine ⟨List.mem_map.mpr ⟨r0, hr0, ?_⟩, s, hs, by rw [hsn, hrn]⟩
        have : r0.1 = r.1 := by rw [← hr0eq]
        rw [this, hrn]
      · rintro ⟨hvals, s, hs, hsn⟩
        obtain ⟨r0, hr0, hr0n⟩ := List.mem_map.mp hvals
        apply List.mem_map.mpr
        refine ⟨⟨extraOf sel ecols r0.1, r0.1, [r0.2]⟩, ?_, by simpa using hr0n⟩
        refine mem_runSelect.mpr ⟨(r0.1, [r0.2]), List.mem_map.mpr ⟨r0, hr0, rfl⟩,
          ⟨s, hs, by rw [hsn, hr0n]⟩, rfl⟩

theorem catMatch_iff (cs : List String) (r : ScenarioRow) :
    catMatch cs r = true ↔ ∃ c, r.category = some c ∧ c ∈ cs := by
  unfold catMatch
  cases hc : r.category with
  | none => simp
  | some c => simp

theorem validateAll_ok (valid vs ws : List String)
    (h : validateAll valid vs = .ok ws) : ws = vs := by
  unfold validateAll at h
  cases hfind : vs.find? (fun c => ¬ valid.contains c) with
  | some c => rw [hfind] at h; simp at h
  | none =>
      rw [hfind] at h
      injection h with h2
      exact h2.symm

theorem applyCat_ok_sub (cat : Option FilterArg)
    (selT selF selT' selF' : List ScenarioRow) (eT eF : List String)
    (hT : applyCat cat selT = .ok (selT', eT))
    (hF : applyCat cat selF = .ok (selF', eF))
    (hsub : ∀ r ∈ selT, r ∈ selF) : ∀ r ∈ selT', r ∈ selF' := by
  cases cat with
  | none =>
      simp only [applyCat, Except.ok.injEq, Prod.mk.injEq] at hT hF
      obtain ⟨hT1, _⟩ := hT
      obtain ⟨hF1, _⟩ := hF
      subst hT1
      subst hF1
      exact hsub
  | some a =>
      simp only [applyCat] at hT hF
      cases hres : resolveArg allCategories a with
      | error e2 => rw [hres] at hT; simp at hT
      | ok cs =>
          rw [hres] at hT hF
          simp only [Except.ok.injEq, Prod.mk.injEq] at hT hF
          obtain ⟨hT1, _⟩ := hT
          obtain ⟨hF1, _⟩ := hF
          subst hT1
          subst hF1
          intro r hr
          have hm := List.mem_filter.mp hr
          exact List.mem_filter.mpr ⟨hsub r hm.1, hm.2⟩

theorem applyIp_ok_sub (ipS : List (String × String)) (ip : Option FilterArg)
    (selT selF selT' selF' : List ScenarioRow) (eT eF : List String)
    (hT : applyIp ipS ip selT = .ok (selT', eT))
    (hF : applyIp ipS ip selF = .ok (selF', eF))
    (hsub : ∀ r ∈ selT, r ∈ selF) : ∀ r ∈ selT', r ∈ selF' := by
  cases ip with
  | none =>
      simp only [applyIp, Except.ok.injEq, Prod.mk.injEq] at hT hF
      obtain ⟨hT1, _⟩ := hT
      obtain ⟨hF1, _⟩ := hF
      subst hT1
      subst hF1
      exact hsub
  | some a =>
      simp only [applyIp] at hT hF
      cases hres : resolveArg (mapKeys ipS) a with
      | error e2 => rw [hres] at hT; simp at hT
      | ok tags =>
          rw [hres] at hT hF
          simp only [Except.ok.injEq, Prod.mk.injEq] at hT hF
          obtain ⟨hT1, _⟩ := hT
          obtain ⟨hF1, _⟩ := hF
          subst hT1
          subst hF1
          intro r hr
          have hm := List.mem_filter.mp hr
          exact List.mem_filter.mpr ⟨hsub r hm.1, hm.2⟩

theorem select_ok_stages (ipS sspS : List (String × String)) (v : Var)
    (cat ip ssp : Option FilterArg) (cp ndc : Option Unit) (vetted : Bool)
    (out : Sel) (h : Var.select ipS sspS v cat ip ssp cp ndc vetted = .ok out) :
    ∃ sel1 e1 sel2 e2 sel3 e3,
      applyCat cat (if vetted then v.vettedScenarios else v.scenarios)
          = .ok (sel1, e1) ∧
      applyIp ipS ip sel1 = .ok (sel2, e2) ∧
      applySsp sspS v.scenarios ssp sel2 = .ok (sel3, e3) ∧
      out = buildSel sel3 (e1 ++ e2 ++ e3) v.values := by
  simp only [Var.select] at h
  cases h1 : applyCat cat (if vetted then v.vettedScenarios else v.scenarios) with
  | error e => simp [h1] at h
  | ok p1 =>
      obtain ⟨sel1, e1⟩ := p1
      simp only [h1] at h
      cases h2 : applyIp ipS ip sel1 with
      | error e => simp [h2] at h
      | ok p2 =>
          obtain ⟨sel2, e2⟩ := p2
          simp only [h2] at h
          cases h3 : applySsp sspS v.scenarios ssp sel2 with
          | error e => simp [h3] at h
          | ok p3 =>
              obtain ⟨sel3, e3⟩ := p3
              simp only [h3] at h
              by_cases hcp : cp.isSome = true
              · simp [hcp] at h
              · simp only [eq_false hcp, if_false] at h
                by_cases hnd : ndc.isSome = true
                · simp [hnd] at h
                · simp only [eq_false hnd, if_false] at h
                  injection h with hout
                  exact ⟨sel1, e1, sel2, e2, sel3, e3, rfl, h2, h3, hout.symm⟩

/-! ### Claims C1, C2, C8, C10 -/

/-- **C1** (amended): for every call to `Var.select` that returns a table,
every scenario row of the result has its identity among the canonical
scenarios of the requested ssp names whenever an ssp filter is given, and
either (a) it comes from the base selection and matches all earlier active
filters — its Category is among the requested category values when a
category filter is given, its identity is among the canonical scenarios of
the requested ip names when an ip filter is given, and it belongs to the
vetted sub-universe when `vetted = true` — or (b) an ssp filter is active
and the row was added back from the full universe by the ssp override,
which exempts it from the vetting, category and ip restrictions alike, not
only from vetting. -/
theorem claim_C1_select_filters (ipS sspS : List (String × String)) (v : Var)
    (cat ip ssp : Option FilterArg) (cp ndc : Option Unit) (vetted : Bool)
    (out : Sel)
    (h : Var.select ipS sspS v cat ip ssp cp ndc vetted = .ok out)
    (n : String) (hn : n ∈ out.namesList) :
    n ∈ v.values.namesList ∧
    (∀ a tags, ssp = some a → resolveArg (mapKeys sspS) a = .ok tags →
      n ∈ canonOf sspS tags) ∧
    ((∃ r, r ∈ (if vetted then v.vettedScenarios else v.scenarios) ∧ r.name = n ∧
        (∀ a cs, cat = some a → resolveArg allCategories a = .ok cs →
          ∃ c, r.category = some c ∧ c ∈ cs) ∧
        (∀ a tags, ip = some a → resolveArg (mapKeys ipS) a = .ok tags →
          r.name ∈ canonOf ipS tags)) ∨
      (ssp.isSome = true ∧ ∃ r, r ∈ v.scenarios ∧ r.name = n)) := by
  obtain ⟨sel1, e1, sel2, e2, sel3, e3, h1, h2, h3, hout⟩ :=
    select_ok_stages ipS sspS v cat ip ssp cp ndc vetted out h
  subst hout
  obtain ⟨hvv, s, hs3, hsn⟩ := (buildSel_names_mem sel3 _ v.values n).mp hn
  have unravel : ∀ s0 : ScenarioRow, s0 ∈ sel2 →
      s0 ∈ (if vetted then v.vettedScenarios else v.scenarios) ∧
      (∀ a cs, cat = some a → resolveArg allCategories a = .ok cs →
        ∃ c, s0.category = some c ∧ c ∈ cs) ∧
      (∀ a tags, ip = some a → resolveArg (mapKeys ipS) a = .ok tags →
        s0.name ∈ canonOf ipS tags) := by
    intro s0 hs0
    obtain ⟨hrsel1, hipok⟩ := applyIp_ok_mem ipS ip sel1 sel2 e2 h2 s0 hs0
    obtain ⟨hrsel0, hcatok⟩ := applyCat_ok_mem cat _ sel1 e1 h1 s0 hrsel1
    exact ⟨hrsel0,
      fun a cs hca hcs => (catMatch_iff cs s0).mp (hcatok a cs hca hcs),
      hipok⟩
  refine ⟨hvv, ?_, ?_⟩
  · intro a tags hsome hres
    rcases applySsp_ok_mem sspS v.scenarios ssp sel2 sel3 e3 h3 s hs3 with
      ⟨hnone, _⟩ | ⟨a', tags', hsome', hres', hcanon, _⟩
    · rw [hnone] at hsome
      cases hsome
    · rw [hsome] at hsome'
      injection hsome' with ha
      subst ha
      rw [hres] at hres'
      injection hres' with ht
      subst ht
      exact hsn ▸ hcanon
  · rcases applySsp_ok_mem sspS v.scenarios ssp sel2 sel3 e3 h3 s hs3 with
      ⟨_, hrsel2⟩ | ⟨a, tags, hsome, _, _, hor⟩
    · obtain ⟨hbase, hcat, hip⟩ := unravel s hrsel2
      exact Or.inl ⟨s, hbase, hsn, hcat, hip⟩
    · rcases hor with hsel2 | hfull
      · obtain ⟨hbase, hcat, hip⟩ := unravel s hsel2
        exact Or.inl ⟨s, hbase, hsn, hcat, hip⟩
      · exact Or.inr ⟨by rw [hsome]; rfl, s, hfull, hsn⟩

/-- **C1** counterexample to the claim as stated: with
`category = ["C1"]`, `ssp = ["SSP1-19"]` and `vetted = true`, the canonical
SSP1-19 scenario (category C8, vetted) is removed by the category filter and
then added back by the ssp override, so the returned table contains a row
whose Category (`C8`) is not among the requested category values — the
override exempts more than the vetting restriction. -/
theorem claim_C1_counterexample :
    Var.select [] [("SSP1-19", "m a")]
        ⟨[], [⟨"m a", some "C8", none, some "SSP1-19"⟩],
          [⟨"m a", some "C8", none, some "SSP1-19"⟩],
          .vector ⟨["2020"], [("m a", [some 1])]⟩, none⟩
        (some (.many ["C1"])) none (some (.many ["SSP1-19"])) none none true
      = .ok (.frame ["2020"] ["Category", "SSP"]
          [⟨[some "C8", some "SSP1-19"], "m a", [some 1]⟩]) ∧
    ¬ ("C8" ∈ ["C1"]) := by
  exact ⟨rfl, by decide⟩

/-- Universe row fixture for the C1 witness. -/
def rowC1 : ScenarioRow := ⟨"n1", some "C2", none, none⟩

/-- Witness for C1: the row-soundness property evaluated on a concrete
category-filtered selection. -/
theorem claim_C1_select_filters_witness :
    "n1" ∈ (VarValues.vector ⟨["2020"], [("n1", [some 4])]⟩).namesList ∧
    (∀ a tags, (none : Option FilterArg) = some a →
      resolveArg (mapKeys ([] : List (String × String))) a = .ok tags →
      "n1" ∈ canonOf [] tags) ∧
    ((∃ r, r ∈ (if (true : Bool) then [rowC1] else [rowC1]) ∧ r.name = "n1" ∧
        (∀ a cs, (some (FilterArg.one "C2") : Option FilterArg) = some a →
          resolveArg allCategories a = .ok cs →
          ∃ c, r.category = some c ∧ c ∈ cs) ∧
        (∀ a tags, (none : Option FilterArg) = some a →
          resolveArg (mapKeys ([] : List (String × String))) a = .ok tags →
          r.name ∈ canonOf [] tags)) ∨
      ((none : Option FilterArg).isSome = true ∧ ∃ r, r ∈ [rowC1] ∧ r.name = "n1")) :=
  claim_C1_select_filters [] []
    ⟨[], [rowC1], [rowC1], .vector ⟨["2020"], [("n1", [some 4])]⟩, none⟩
    (some (.one "C2")) none none none none true
    (.frame ["2020"] ["Category"] [⟨[some "C2"], "n1", [some 4]⟩])
    rfl "n1" (by decide)

/-- **C2**: for every `select(ssp = L, vetted = true)` call that returns a
table, every requested SSP tag whose canonical scenario has values for this
`Var` is represented: the canonical scenario's identity appears in the
result — even when that scenario is absent from the vetted sub-universe,
since the override re-adds it from the full universe. -/
theorem claim_C2_ssp_addback (ipS sspS : List (String × String)) (v : Var)
    (L : List String) (out : Sel)
    (h : Var.select ipS sspS v none none (some (.many L)) none none true = .ok out)
    (t c : String) (ht : t ∈ L)
    (hc : (sspS.find? (fun p => p.1 = t)).map Prod.snd = some c)
    (hvals : c ∈ v.values.namesList) :
    c ∈ out.namesList := by
  obtain ⟨sel1, e1, sel2, e2, sel3, e3, h1, h2, h3, hout⟩ :=
    select_ok_stages ipS sspS v none none (some (.many L)) none none true out h
  subst hout
  cases hres : resolveArg (mapKeys sspS) (.many L) with
  | error e0 => simp [applySsp, hres] at h3
  | ok tags =>
      have htags : tags = L :=
        validateAll_ok (mapKeys sspS) L tags (by simpa [resolveArg] using hres)
      subst htags
      have hcanon : c ∈ canonOf sspS tags := List.mem_filterMap.mpr ⟨t, ht, hc⟩
      obtain ⟨r, hr3, hrn⟩ :=
        applySsp_ok_covers sspS v.scenarios (.many tags) sel2 sel3 e3 tags h3 hres c hcanon
      exact (buildSel_names_mem sel3 _ v.values c).mpr ⟨hvals, r, hr3, hrn⟩

/-- Universe row fixture for the C2 witness: the canonical SSP1-19 scenario,
absent from the vetted sub-universe. -/
def rowC2 : ScenarioRow := ⟨"m a", some "C8", none, some "SSP1-19"⟩

/-- Witness for C2: the canonical scenario of the requested tag appears in
the result although the vetted sub-universe is empty. -/
theorem claim_C2_ssp_addback_witness :
    (Var.select [] [("SSP1-19", "m a")]
        ⟨[], [rowC2], [], .vector ⟨["2020"], [("m a", [some 1])]⟩, none⟩
        none none (some (.many ["SSP1-19"])) none none true
      = .ok (.frame ["2020"] ["SSP"] [⟨[some "SSP1-19"], "m a", [some 1]⟩])) ∧
    "m a" ∈ Sel.namesList
      (.frame ["2020"] ["SSP"] [⟨[some "SSP1-19"], "m a", [some 1]⟩]) :=
  ⟨rfl,
   claim_C2_ssp_addback [] [("SSP1-19", "m a")]
     ⟨[], [rowC2], [], .vector ⟨["2020"], [("m a", [some 1])]⟩, none⟩
     ["SSP1-19"]
     (.frame ["2020"] ["SSP"] [⟨[some "SSP1-19"], "m a", [some 1]⟩])
     rfl "SSP1-19" "m a" (by decide) (by decide) (by decide)⟩

/-- **C8**: when the vetted sub-universe is contained in the full universe
and both calls return, the scenario identities of `select(vetted = true)`
are a subset of those of `select(vetted = false)` for identical other
filters. -/
theorem claim_C8_vetted_subset (ipS sspS : List (String × String)) (v : Var)
    (cat ip ssp : Option FilterArg) (cp ndc : Option Unit) (outT outF : Sel)
    (hsub : ∀ r ∈ v.vettedScenarios, r ∈ v.scenarios)
    (hT : Var.select ipS sspS v cat ip ssp cp ndc true = .ok outT)
    (hF : Var.select ipS sspS v cat ip ssp cp ndc false = .ok outF) :
    ∀ n, n ∈ outT.namesList → n ∈ outF.namesList := by
  obtain ⟨s1T, e1T, s2T, e2T, s3T, e3T, h1T, h2T, h3T, houtT⟩ :=
    select_ok_stages ipS sspS v cat ip ssp cp ndc true outT hT
  obtain ⟨s1F, e1F, s2F, e2F, s3F, e3F, h1F, h2F, h3F, houtF⟩ :=
    select_ok_stages ipS sspS v cat ip ssp cp ndc false outF hF
  subst houtT
  subst houtF
  intro n hnT
  obtain ⟨hvv, sT, hsT, hsTn⟩ := (buildSel_names_mem s3T _ v.values n).mp hnT
  have hsub1 := applyCat_ok_sub cat _ _ s1T s1F e1T e1F h1T h1F hsub
  have hsub2 := applyIp_ok_sub ipS ip s1T s1F s2T s2F e2T e2F h2T h2F hsub1
  have hsub3 := applySsp_ok_names_sub sspS v.scenarios ssp s2T s2F s3T s3F
    e3T e3F h3T h3F hsub2
  obtain ⟨rF, hrF, hrFn⟩ := hsub3 n ⟨sT, hsT, hsTn⟩
  exact (buildSel_names_mem s3F _ v.values n).mpr ⟨hvv, rF, hrF, hrFn⟩

/-- Vetted universe row fixture for the C8 witness. -/
def rowC8a : ScenarioRow := ⟨"a", some "C1", none, none⟩

/-- Unvetted universe row fixture for the C8 witness. -/
def rowC8b : ScenarioRow := ⟨"b", some "C1", none, none⟩

/-- Var fixture for the C8 witness. -/
def varC8 : Var :=
  ⟨[], [rowC8a, rowC8b], [rowC8a],
    .vector ⟨["2020"], [("a", [some 1]), ("b", [some 2])]⟩, none⟩

/-- Witness for C8: the vetted result's scenarios are contained in the
unvetted result's scenarios on a concrete two-scenario universe. -/
theorem claim_C8_vetted_subset_witness :
    (∀ r ∈ [rowC8a], r ∈ [rowC8a, rowC8b]) ∧
    (Var.select [] [] varC8 none none none none none true
      = .ok (.frame ["2020"] [] [⟨[], "a", [some 1]⟩])) ∧
    (Var.select [] [] varC8 none none none none none false
      = .ok (.frame ["2020"] [] [⟨[], "a", [some 1]⟩, ⟨[], "b", [some 2]⟩])) ∧
    (∀ n, n ∈ Sel.namesList (.frame ["2020"] [] [⟨[], "a", [some 1]⟩]) →
      n ∈ Sel.namesList
        (.frame ["2020"] [] [⟨[], "a", [some 1]⟩, ⟨[], "b", [some 2]⟩])) :=
  ⟨by decide, rfl, rfl,
   claim_C8_vetted_subset [] [] varC8 none none none none none
     (.frame ["2020"] [] [⟨[], "a", [some 1]⟩])
     (.frame ["2020"] [] [⟨[], "a", [some 1]⟩, ⟨[], "b", [some 2]⟩])
     (by decide) rfl rfl⟩

/-- **C10**: for a scalar-mode `Var` the result of `select` is a Series
whose name is the literal string `"value"`, the output is invariant under
changing the `Var`'s year token (so the token is not recoverable from the
output), and in vector mode the year labels are preserved as the result's
columns. -/
theorem claim_C10_scalar_value_name (ipS sspS : List (String × String))
    (cat ip ssp : Option FilterArg) (cp ndc : Option Unit) (vetted : Bool)
    (data : List DataRow) (scen vet : List ScenarioRow) (dflt : Option ℚ)
    (t t2 : String) (rs : List (String × Cell)) (d : DF) :
    (∀ out, Var.select ipS sspS ⟨data, scen, vet, .scalar t rs, dflt⟩
        cat ip ssp cp ndc vetted = .ok out →
      ∃ ec rows2, out = .series "value" ec rows2) ∧
    Var.select ipS sspS ⟨data, scen, vet, .scalar t rs, dflt⟩
        cat ip ssp cp ndc vetted
      = Var.select ipS sspS ⟨data, scen, vet, .scalar t2 rs, dflt⟩
        cat ip ssp cp ndc vetted ∧
    (∀ out, Var.select ipS sspS ⟨data, scen, vet, .vector d, dflt⟩
        cat ip ssp cp ndc vetted = .ok out →
      ∃ ec rows2, out = .frame d.cols ec rows2) := by
  refine ⟨?_, rfl, ?_⟩
  · intro out h
    obtain ⟨sel1, e1, sel2, e2, sel3, e3, h1, h2, h3, hout⟩ :=
      select_ok_stages ipS sspS _ cat ip ssp cp ndc vetted out h
    exact ⟨e1 ++ e2 ++ e3, _, hout⟩
  · intro out h
    obtain ⟨sel1, e1, sel2, e2, sel3, e3, h1, h2, h3, hout⟩ :=
      select_ok_stages ipS sspS _ cat ip ssp cp ndc vetted out h
    exact ⟨e1 ++ e2 ++ e3, _, hout⟩

/-- Witness for C10: the three conclusions evaluated on a concrete scalar
and vector `Var` over an empty filter configuration. -/
theorem claim_C10_scalar_value_name_witness :
    (∀ out, Var.select [] [] ⟨[], [rowC1], [rowC1], .scalar "2020" [("n1", some 4)], none⟩
        none none none none none true = .ok out →
      ∃ ec rows2, out = .series "value" ec rows2) ∧
    Var.select [] [] ⟨[], [rowC1], [rowC1], .scalar "2020" [("n1", some 4)], none⟩
        none none none none none true
      = Var.select [] [] ⟨[], [rowC1], [rowC1], .scalar "2030" [("n1", some 4)], none⟩
        none none none none none true ∧
    (∀ out, Var.select [] []
        ⟨[], [rowC1], [rowC1], .vector ⟨["2020"], [("n1", [some 4])]⟩, none⟩
        none none none none none true = .ok out →
      ∃ ec rows2, out = .frame ["2020"] ec rows2) :=
  claim_C10_scalar_value_name [] [] none none none none none true
    [] [rowC1] [rowC1] none "2020" "2030" [("n1", some 4)]
    ⟨["2020"], [("n1", [some 4])]⟩
